import Mathlib


/-! ## Definitions: data model, predicate engine, form, coercion, loader, export -/
/-- Semantic dtype of a column, as the source distinguishes them via
`is_numeric_dtype` / `is_datetime64_any_dtype` / `dtype == object`. -/
inductive Dtype where
  | numeric
  | temporal
  | object
deriving DecidableEq

/-- A concrete (non-missing) cell value. -/
inductive Lit where
  /-- an integer/float value of a numeric column -/
  | i (n : Int)
  /-- a timestamp: day number plus a time-of-day tag (`.dt.date` keeps `day`) -/
  | ts (day : Int) (tod : Nat)
  /-- a string value of an object column -/
  | s (v : String)
deriving DecidableEq

/-- A cell: `none` is a missing value (`NaN` / `NaT`). -/
def Cell := Option Lit
deriving DecidableEq

/-- A schema entry: column name and dtype. -/
structure Col where
  name : String
  dtype : Dtype
deriving DecidableEq

/-- A pandas `DataFrame`: schema plus row-major cells. -/
structure Table where
  schema : List Col
  rows : List (List Cell)
deriving DecidableEq

/-- A row of a table. -/
abbrev Row := List Cell

/-- Cell of row `r` in column position `i` (out-of-range reads are missing). -/
def cellAt (r : Row) (i : Nat) : Cell := (r.get? i).getD none

/-- Index of column `c` in `t`'s schema (`df[c]` lookup; `none` = `KeyError`). -/
def colIdx (t : Table) (c : String) : Option Nat :=
  t.schema.findIdx? (fun col => col.name == c)

/-- Position and schema entry of column `c`. -/
def lookupCol (t : Table) (c : String) : Option (Nat × Col) :=
  (colIdx t c).bind (fun i => (t.schema.get? i).map (fun col => (i, col)))

/-- The cells of column position `i`, top to bottom. -/
def colCells (t : Table) (i : Nat) : List Cell := t.rows.map (fun r => cellAt r i)

/-- Numeric view of a cell (`NaN` and non-numeric content are missing). -/
def cellNum : Cell → Option Int
  | some (.i n) => some n
  | _ => none

/-- `.dt.date` view of a cell (`NaT` and non-temporal content are missing). -/
def cellDate : Cell → Option Int
  | some (.ts d _) => some d
  | _ => none

/-- String view of a cell (missing and non-string content yield `none`). -/
def cellStr : Cell → Option String
  | some (.s v) => some v
  | _ => none

/-- `astype(str)` on a single cell.  pandas renders a missing value as the
literal string `"nan"`; present values are rendered by their repr. -/
def astypeStr : Cell → String
  | none => "nan"
  | some (.s v) => v
  | some (.i n) => toString n
  | some (.ts d _) => toString d

/-- `float(df[col].min())`: minimum of the non-missing numeric values. -/
def numMin (t : Table) (i : Nat) : Option Int := ((colCells t i).filterMap cellNum).min?

/-- `float(df[col].max())`: maximum of the non-missing numeric values. -/
def numMax (t : Table) (i : Nat) : Option Int := ((colCells t i).filterMap cellNum).max?

/-- `df[col].dt.date.min()`: minimum of the non-missing dates. -/
def dateMin (t : Table) (i : Nat) : Option Int := ((colCells t i).filterMap cellDate).min?

/-- `df[col].dt.date.max()`: maximum of the non-missing dates. -/
def dateMax (t : Table) (i : Nat) : Option Int := ((colCells t i).filterMap cellDate).max?

/-- The full observed `(min, max)` of a numeric column, when defined. -/
def observedNumRange (t : Table) (c : String) : Option (Int × Int) := do
  let i ← colIdx t c
  let lo ← numMin t i
  let hi ← numMax t i
  pure (lo, hi)

/-- The full observed `(min, max)` of the dates of a temporal column. -/
def observedDateRange (t : Table) (c : String) : Option (Int × Int) := do
  let i ← colIdx t c
  let lo ← dateMin t i
  let hi ← dateMax t i
  pure (lo, hi)

/-- `pat` occurs as a contiguous sublist of `hay`. -/
def listContainsSub (pat : List Char) : List Char → Bool
  | [] => pat.isEmpty
  | c :: t => pat.isPrefixOf (c :: t) || listContainsSub pat t

/-- `Series.str.contains(pat, case=False)` on a plain (regex-free) pattern:
case-insensitive substring containment. -/
def containsCI (pat hay : String) : Bool :=
  listContainsSub (pat.toList.map Char.toLower) (hay.toList.map Char.toLower)

/-- A reified Filter Specification: the dictionaries that
`build_filters_form` assembles from the widgets before filtering
(source lines 47–66), plus window, time column and projection.
The source keeps the temporal constraints inside `categorical_selections`
under `__dt__`-prefixed keys; here they are a separate field — all
constraints are intersected, so the split does not change any result. -/
structure Spec where
  projection : List String
  timeCol : String
  window : Int × Int
  numeric : List (String × Int × Int)
  temporalC : List (String × List Int)
  categorical : List (String × List String)
  textC : List (String × String)
deriving DecidableEq

/-- Mask of source line 80: the time column's date lies inside the
inclusive window; a missing date never passes. -/
def timePred (s e : Int) (i : Nat) (r : Row) : Bool :=
  match cellDate (cellAt r i) with
  | some d => decide (s ≤ d) && decide (d ≤ e)
  | none => false

/-- `Series.between(lo, hi)` on one row: inclusive, missing never passes. -/
def betweenPred (i : Nat) (lo hi : Int) (r : Row) : Bool :=
  match cellNum (cellAt r i) with
  | some v => decide (lo ≤ v) && decide (v ≤ hi)
  | none => false

/-- Date-range mask of source line 93: inclusive on dates, missing never passes. -/
def dtBetweenPred (i : Nat) (s e : Int) (r : Row) : Bool :=
  match cellDate (cellAt r i) with
  | some d => decide (s ≤ d) && decide (d ≤ e)
  | none => false

/-- `Series.isin(sel)` on one row: membership of the (string) value;
a missing value is never a member. -/
def isinPred (i : Nat) (sel : List String) (r : Row) : Bool :=
  match cellStr (cellAt r i) with
  | some v => sel.contains v
  | none => false

/-- Substring mask of source line 101:
`filtered[col].astype(str).str.contains(text, case=False, na=False)`.
Note `astype(str)` renders a missing value as `"nan"` before the
containment test, so `na=False` never sees a missing value. -/
def subPred (i : Nat) (txt : String) (r : Row) : Bool :=
  containsCI txt (astypeStr (cellAt r i))

/-- One iteration of the numeric loop (source lines 83–85): skip the
constraint when it equals the column's full observed range in `df`,
otherwise intersect with `between(low, high)`. -/
def numericStep (df : Table) (rows : List Row) (e : String × Int × Int) :
    Option (List Row) := do
  let i ← colIdx df e.1
  if numMin df i = some e.2.1 ∧ numMax df i = some e.2.2 then
    pure rows
  else
    pure (rows.filter (betweenPred i e.2.1 e.2.2))

/-- One iteration of the `__dt__` branch (source lines 88–93): skip unless
the raw control is a two-element range; skip a full-range constraint;
otherwise intersect with the inclusive date mask. -/
def dtStep (df : Table) (rows : List Row) (e : String × List Int) :
    Option (List Row) :=
  match e.2 with
  | [s, e'] => do
      let i ← colIdx df e.1
      if dateMin df i = some s ∧ dateMax df i = some e' then
        pure rows
      else
        pure (rows.filter (dtBetweenPred i s e'))
  | _ => pure rows

/-- One iteration of the categorical branch (source lines 94–97): an empty
selection is no constraint; otherwise intersect with `isin(sel)`. -/
def catStep (df : Table) (rows : List Row) (e : String × List String) :
    Option (List Row) :=
  if e.2.isEmpty then pure rows
  else do
    let i ← colIdx df e.1
    pure (rows.filter (isinPred i e.2))

/-- One iteration of the substring loop (source lines 99–101): an empty
text is no constraint; otherwise intersect with the containment mask. -/
def subStep (df : Table) (rows : List Row) (e : String × String) :
    Option (List Row) :=
  if e.2.isEmpty then pure rows
  else do
    let i ← colIdx df e.1
    pure (rows.filter (subPred i e.2))

/-- `filtered[selected_columns]` (source line 103): select and reorder the
named columns; a name absent from the schema is a `KeyError`. -/
def projectTable (t : Table) (cols : List String) : Option Table := do
  let pairs ← cols.mapM (lookupCol t)
  pure ⟨pairs.map (fun pc => pc.2), t.rows.map (fun r => pairs.map (fun pc => cellAt r pc.1))⟩

/-- The row-masking stage of the Predicate Engine (source lines 79–101):
time window first, then numeric, temporal, categorical and substring
constraints, each a successive boolean-mask filter.  Constraint
comparisons against "the column's full observed range" read `df`, the
table the engine was invoked on, exactly as the source's loops do. -/
def maskRows (df : Table) (sp : Spec) : Option (List Row) := do
  let ti ← colIdx df sp.timeCol
  let f0 := df.rows.filter (timePred sp.window.1 sp.window.2 ti)
  let f1 ← sp.numeric.foldlM (numericStep df) f0
  let f2 ← sp.temporalC.foldlM (dtStep df) f1
  let f3 ← sp.categorical.foldlM (catStep df) f2
  sp.textC.foldlM (subStep df) f3

/-- The Predicate Engine (source lines 79–104): mask the rows, then project
to the selected columns in their selected order. -/
def applyFilters (df : Table) (sp : Spec) : Option Table := do
  let f4 ← maskRows df sp
  projectTable ⟨df.schema, f4⟩ sp.projection

/-- The raw control values coming back from the sidebar form, one entry per
widget the source creates (functions give the value a widget would hold for
a given column name). -/
structure RawControls where
  /-- `st.multiselect('Columns to include in export', ...)` -/
  selectedColumns : List String
  /-- the chosen time column (`st.selectbox`, constrained to datetime columns) -/
  timeCol : String
  /-- `st.date_input` for the window: one or two dates -/
  dateRange : List Int
  /-- `st.slider(f'{col} range', ...)` value for a numeric column -/
  slider : String → Int × Int
  /-- `st.date_input(f'{col} date range (optional)', ...)` for a non-time temporal column -/
  dtRange : String → List Int
  /-- `st.multiselect(f'{col} values', ...)` for a low-cardinality object column -/
  multisel : String → List String
  /-- `st.text_input(f'Substring in {col}')` for a high-cardinality object column -/
  textIn : String → String

/-- `sorted(df[col].dropna().unique().tolist()).length`: the number of
distinct non-missing values of an object column. -/
def nUnique (t : Table) (i : Nat) : Nat := ((colCells t i).filterMap cellStr).dedup.length

/-- The per-column dispatch of source lines 50–64: route every non-time
column into the numeric / temporal / categorical / substring dictionary
according to its dtype and (for object columns) its distinct-value count,
and pair it with its raw control value. -/
def mkSpec (df : Table) (raw : RawControls) (w : Int × Int) : Spec where
  projection := raw.selectedColumns
  timeCol := raw.timeCol
  window := w
  numeric := (df.schema.enum.filterMap (fun p =>
    if p.2.name = raw.timeCol then none
    else if p.2.dtype = .numeric then some (p.2.name, raw.slider p.2.name) else none))
  temporalC := (df.schema.enum.filterMap (fun p =>
    if p.2.name = raw.timeCol then none
    else if p.2.dtype = .temporal then some (p.2.name, raw.dtRange p.2.name) else none))
  categorical := (df.schema.enum.filterMap (fun p =>
    if p.2.name = raw.timeCol then none
    else if p.2.dtype = .numeric ∨ p.2.dtype = .temporal then none
    else if nUnique df p.1 ≤ 100 then some (p.2.name, raw.multisel p.2.name) else none))
  textC := (df.schema.enum.filterMap (fun p =>
    if p.2.name = raw.timeCol then none
    else if p.2.dtype = .numeric ∨ p.2.dtype = .temporal then none
    else if nUnique df p.1 ≤ 100 then none else some (p.2.name, raw.textIn p.2.name)))

/-- The distinct failure modes of `build_filters_form`: the source reports
each with its own message and returns `(None, False)`; a `KeyError` from a
lookup of a nonexistent column would escape as an exception. -/
inductive FormError where
  | noTemporalColumn
  | incompleteWindow
  | windowTooLong
  | keyError
deriving DecidableEq

/-- `build_filters_form` (source lines 29–104): fail when no datetime
column exists; fail when the window control does not hold exactly two
dates; fail when `(end_date - start_date).days > 30`; otherwise assemble
the spec and run the Predicate Engine. -/
def build_filters_form (df : Table) (raw : RawControls) : Except FormError Table :=
  let datetimeCols := (df.schema.filter (fun col => col.dtype = .temporal)).map (fun col => col.name)
  if datetimeCols.isEmpty then .error .noTemporalColumn
  else
    match raw.dateRange with
    | [s, e] =>
        if e - s > 30 then .error .windowTooLong
        else
          match applyFilters df (mkSpec df raw (s, e)) with
          | some t => .ok t
          | none => .error .keyError
    | _ => .error .incompleteWindow

/-- `pd.to_datetime(value, errors='coerce')` on one cell of an object
column, for an abstract date parser `p`: a missing or unparsable entry
becomes missing, never an error. -/
def parseCell (p : String → Option (Int × Nat)) : Cell → Cell
  | some (.s v) =>
      match p v with
      | some dt => some (.ts dt.1 dt.2)
      | none => none
  | _ => none

/-- `parsed.notna()` count: how many entries of the column parse. -/
def parsedCount (p : String → Option (Int × Nat)) (cells : List Cell) : Nat :=
  (cells.map (parseCell p)).countP (fun c => c.isSome)

/-- `parsed.notna().mean()` of the source: the fraction of successfully
parsed entries over **all** entries of the column (an empty column gives
`0`, which like pandas' `NaN` mean fails the `> 0.8` test). -/
def parsedFrac (p : String → Option (Int × Nat)) (cells : List Cell) : ℚ :=
  (parsedCount p cells : ℚ) / (cells.length : ℚ)

/-- Whether column position `i` of `t` gets coerced: it is an object
column whose parsed fraction exceeds `0.8`; `mean > 0.8` is compared
exactly, by cross-multiplication (an empty column never passes, matching
pandas' `NaN > 0.8` being false). -/
def coerces (p : String → Option (Int × Nat)) (t : Table) (i : Nat) : Bool :=
  match t.schema.get? i with
  | some col =>
      decide (col.dtype = .object) &&
        decide (4 * (colCells t i).length < 5 * parsedCount p (colCells t i))
  | none => false

/-- The coercion pass of `main` (source lines 147–152): for every object
column, parse every value and, when the parsed fraction exceeds `0.8`,
replace the column by the parsed dates (its dtype becomes temporal).
It is a total function: malformed input degrades to missing values. -/
def autoCoerce (p : String → Option (Int × Nat)) (t : Table) : Table where
  schema := t.schema.enum.map (fun q =>
    if coerces p t q.1 then { q.2 with dtype := .temporal } else q.2)
  rows := t.rows.map (fun r => r.enum.map (fun q =>
    if coerces p t q.1 then parseCell p q.2 else q.2))

/-- Modelled from the spec (§4.1), for comparison with the source's
`parsedFrac`: the fraction of successfully parsed values **among the
column's non-missing values**, the denominator the claim C2 prescribes. -/
def specParsedFrac (p : String → Option (Int × Nat)) (cells : List Cell) : ℚ :=
  (parsedCount p cells : ℚ) / ((cells.countP (fun c => c.isSome)) : ℚ)

instance {ε α : Type} [DecidableEq ε] [DecidableEq α] : DecidableEq (Except ε α) :=
  fun a b =>
    match a, b with
    | .ok x, .ok y =>
        if h : x = y then isTrue (by rw [h]) else isFalse (by simp [h])
    | .error x, .error y =>
        if h : x = y then isTrue (by rw [h]) else isFalse (by simp [h])
    | .ok _, .error _ => isFalse (by simp)
    | .error _, .ok _ => isFalse (by simp)

/-- Failure of a parsing backend.  Only `ValueError` is caught by the
`.json` fallback of source line 24; any other exception propagates. -/
inductive PErr where
  | valueError
  | otherError
deriving DecidableEq

/-- Outcome of `load_file`: a table, the `Unsupported file type` error of
source line 26, or a propagated backend exception. -/
inductive LoadResult where
  | ok (t : Table)
  | unsupported
  | parseFail (e : PErr)
deriving DecidableEq

/-- Lift a backend outcome into a `load_file` outcome. -/
def liftParse : Except PErr Table → LoadResult
  | .ok t => .ok t
  | .error e => .parseFail e

/-- `uploaded_file.name.lower()` as a character list. -/
def lowerName (n : String) : List Char := n.toList.map Char.toLower

/-- `name.endswith(ext)` on the lowercased name. -/
def endsWithExt (n : List Char) (ext : String) : Bool := ext.toList.isSuffixOf n

/-- The `.json` branch of source lines 20–25: try the array-of-records
parse; on a `ValueError` fall back to the line-delimited parse; any other
exception propagates. -/
def jsonFallback (arr lines : Except PErr Table) : LoadResult :=
  match arr with
  | .ok t => .ok t
  | .error .valueError => liftParse lines
  | .error e => .parseFail e

/-- `load_file` (source lines 11–26), with the four parsing backends as
parameters over an abstract byte-blob type `δ`: dispatch on the lowercased
file extension; for `.json`, try the array-of-records parser first and
fall back to the line-delimited parser exactly when the first raised a
`ValueError`; raise the unsupported-file-type error only when no
recognized extension matches. -/
def load_file {δ : Type} (name : String) (data : δ)
    (readParquet readCsv readJsonLines readJsonArray : δ → Except PErr Table) :
    LoadResult :=
  let n := lowerName name
  if endsWithExt n ".parquet" then liftParse (readParquet data)
  else if endsWithExt n ".csv" then liftParse (readCsv data)
  else if endsWithExt n ".jsonl" || endsWithExt n ".jsonl.gz" then
    liftParse (readJsonLines data)
  else if endsWithExt n ".json" then jsonFallback (readJsonArray data) (readJsonLines data)
  else .unsupported

/-- `chunk_size = 500_000` (source line 163). -/
def chunk_size : Nat := 500000

/-- The filename of source line 175, for 1-based part number `k`:
`filtered_part_{k}.csv`. -/
def partName (k : Nat) : String := "filtered_part_" ++ toString k ++ ".csv"

/-- The slices `filtered.iloc[start:end]` produced by the loop of source
lines 171–173, via fuel recursion (`fuel ≥ length` suffices when `c > 0`). -/
def chunksGo (c : Nat) : Nat → List ρ → List (List ρ)
  | f + 1, x :: l => (x :: l).take c :: chunksGo c f ((x :: l).drop c)
  | _, _ => []

/-- Partition `l` into consecutive chunks of at most `c` elements. -/
def chunks (l : List ρ) (c : Nat) : List (List ρ) := chunksGo c l.length l

/-- The chunk row-counts for a table of `n` rows at chunk limit `c`. -/
def chunkSizesGo (c : Nat) : Nat → Nat → List Nat
  | f + 1, n + 1 => min c (n + 1) :: chunkSizesGo c f (n + 1 - c)
  | _, _ => []

/-- Row counts of the chunks of an `n`-row table at chunk limit `c`. -/
def chunkSizes (c n : Nat) : List Nat := chunkSizesGo c n n

/-- A delimited-text export artifact: one CSV, or a ZIP archive of named
CSV members. The rows stand for the serialized CSV text — the serializer
itself is an external collaborator (spec §1). -/
inductive ExportArtifact (ρ : Type) where
  | single (rows : List ρ)
  | archive (parts : List (String × List ρ))
deriving DecidableEq

/-- The delimited-text export of source lines 163–176: one CSV when the
row count is within `chunk_size`, else a ZIP of sequentially numbered
`filtered_part_{k}.csv` members, `k` counting from 1. -/
def exportDelimited (rows : List ρ) : ExportArtifact ρ :=
  if rows.length ≤ chunk_size then .single rows
  else .archive ((chunks rows chunk_size).enum.map (fun q =>
    (partName (q.1 + 1), q.2)))

/-- The export tail of `main` (source lines 163–183): the delimited-text
artifact is produced first; then the columnar-binary (Parquet) backend is
attempted, its failure reported as an unavailability caption rather than
raised.  `toParquet` abstracts `DataFrame.to_parquet` with its engine. -/
def runExport {ε β : Type} (t : Table) (toParquet : Table → Except ε β) :
    ExportArtifact Row × (Option β × Option ε) :=
  (exportDelimited t.rows,
    match toParquet t with
    | .ok b => (some b, none)
    | .error e => (none, some e))

/-- The filter-to-export slice of `main` (source lines 154–176), delimited
text only: no artifact is produced unless `build_filters_form` succeeds. -/
def mainPipeline (df : Table) (raw : RawControls) : Option (ExportArtifact Row) :=
  match build_filters_form df raw with
  | .ok t => some (exportDelimited t.rows)
  | .error _ => none

/-- The empty table. -/
def stubTable : Table := ⟨[], []⟩

/-- A backend that always succeeds with the empty table. -/
def stubOk : Unit → Except PErr Table := fun _ => .ok stubTable

/-- A backend that always raises `ValueError`. -/
def stubVE : Unit → Except PErr Table := fun _ => .error .valueError

/-- A one-column, one-row table with a temporal `time` column. -/
def fixtureTimeTable : Table := ⟨[⟨"time", .temporal⟩], [[some (.ts 0 0)]]⟩

/-- Raw controls over `fixtureTimeTable` with a given window control. -/
def fixtureRaw (d : List Int) : RawControls where
  selectedColumns := ["time"]
  timeCol := "time"
  dateRange := d
  slider := fun _ => (0, 0)
  dtRange := fun _ => []
  multisel := fun _ => []
  textIn := fun _ => ""

/-- A schema-less table with 500,001 empty rows, exceeding the chunk
limit. -/
def bigFixture : Table := ⟨[], List.replicate 500001 []⟩

/-- A parser recognizing exactly the string `"d"`, standing for
`pd.to_datetime` on a fixed date format. -/
def fixtureParser : String → Option (Int × Nat) :=
  fun v => if v = "d" then some (0, 0) else none

/-- An object column with four parseable values and one missing value:
all non-missing values parse, but the source's fraction is `4/5`. -/
def fixtureObjTable : Table :=
  ⟨[⟨"c", .object⟩],
   [[some (.s "d")], [some (.s "d")], [some (.s "d")], [some (.s "d")], [none]]⟩

/-- A table with a time column and a high-cardinality-style text column
holding one present value and one missing value. -/
def fixtureSubTable : Table :=
  ⟨[⟨"t", .temporal⟩, ⟨"c", .object⟩],
   [[some (.ts 0 0), some (.s "abc")],
    [some (.ts 0 0), none]]⟩

/-- A spec constraining `fixtureSubTable`'s text column to the substring
`"nan"`. -/
def fixtureSubSpec : Spec where
  projection := ["t", "c"]
  timeCol := "t"
  window := (0, 0)
  numeric := []
  temporalC := []
  categorical := []
  textC := [("c", "nan")]

/-- A table with a time column and a numeric column whose observed range
is `(1, 5)`, including a missing numeric value. -/
def fixtureC4Table : Table :=
  ⟨[⟨"time", .temporal⟩, ⟨"v", .numeric⟩],
   [[some (.ts 0 0), some (.i 1)],
    [some (.ts 0 0), none],
    [some (.ts 0 0), some (.i 5)]]⟩

/-- A spec whose numeric constraint on `v` equals the full observed range. -/
def fixtureC4Spec : Spec where
  projection := ["time", "v"]
  timeCol := "time"
  window := (0, 0)
  numeric := [("v", 1, 5)]
  temporalC := []
  categorical := []
  textC := []

/-- A table with a time column and a categorical column holding `"a"`,
`"b"` and a missing value. -/
def fixtureC5Table : Table :=
  ⟨[⟨"time", .temporal⟩, ⟨"c", .object⟩],
   [[some (.ts 0 0), some (.s "a")],
    [some (.ts 0 0), some (.s "b")],
    [some (.ts 0 0), none]]⟩

/-- A spec selecting `sel` on the categorical column `c`. -/
def fixtureC5Spec (sel : List String) : Spec where
  projection := ["time", "c"]
  timeCol := "time"
  window := (0, 0)
  numeric := []
  temporalC := []
  categorical := [("c", sel)]
  textC := []

/-- Every cell of numeric column `c` is a present numeric value (vacuously
true when the column does not exist). -/
def numColOk (df : Table) (c : String) : Bool :=
  match colIdx df c with
  | some i => df.rows.all (fun r => (cellNum (cellAt r i)).isSome)
  | none => true

/-- Every cell of temporal column `c` is a present date (vacuously true
when the column does not exist). -/
def dateColOk (df : Table) (c : String) : Bool :=
  match colIdx df c with
  | some i => df.rows.all (fun r => (cellDate (cellAt r i)).isSome)
  | none => true

/-- A table whose numeric column `v` has observed range `(1, 5)` and a
missing value, with a time column spanning two days. -/
def fixtureC8Table : Table :=
  ⟨[⟨"time", .temporal⟩, ⟨"v", .numeric⟩],
   [[some (.ts 0 0), none],
    [some (.ts 0 0), some (.i 1)],
    [some (.ts 1 0), some (.i 5)]]⟩

/-- A spec over `fixtureC8Table`: one-day window, full-range numeric
constraint `(1, 5)` on `v`, full projection. -/
def fixtureC8Spec : Spec where
  projection := ["time", "v"]
  timeCol := "time"
  window := (0, 0)
  numeric := [("v", 1, 5)]
  temporalC := []
  categorical := []
  textC := []

/-- The result of one application: the day-0 rows, missing value kept
(the constraint is inert on the original table). -/
def fixtureC8Once : Table :=
  ⟨[⟨"time", .temporal⟩, ⟨"v", .numeric⟩],
   [[some (.ts 0 0), none],
    [some (.ts 0 0), some (.i 1)]]⟩

/-- The result of a second application: on the filtered table the observed
range of `v` is `(1, 1) ≠ (1, 5)`, the constraint turns active, and
`between` drops the missing-valued row. -/
def fixtureC8Twice : Table :=
  ⟨[⟨"time", .temporal⟩, ⟨"v", .numeric⟩],
   [[some (.ts 0 0), some (.i 1)]]⟩

/-- A variant of `fixtureC8Table` with no missing values. -/
def fixtureC8OkTable : Table :=
  ⟨[⟨"time", .temporal⟩, ⟨"v", .numeric⟩],
   [[some (.ts 0 0), some (.i 1)],
    [some (.ts 0 0), some (.i 5)]]⟩


/-! ## Helper lemmas and claim theorems -/
theorem liftParse_ne_unsupported (r : Except PErr Table) : liftParse r ≠ .unsupported := by
  cases r <;> simp [liftParse]

theorem endsWithExt_false_of {n : List Char} {a b : String}
    (h : endsWithExt n a = true)
    (hab : ¬ a.toList <:+ b.toList) (hba : ¬ b.toList <:+ a.toList) :
    endsWithExt n b = false := by
  have ha : a.toList <:+ n := by
    simpa [endsWithExt, List.isSuffixOf_iff_suffix] using h
  cases hb : endsWithExt n b with
  | false => rfl
  | true =>
      have hb' : b.toList <:+ n := by
        simpa [endsWithExt, List.isSuffixOf_iff_suffix] using hb
      rcases List.suffix_or_suffix_of_suffix ha hb' with h' | h'
      · exact absurd h' hab
      · exact absurd h' hba

theorem jsonFallback_ne_unsupported (a l : Except PErr Table) :
    jsonFallback a l ≠ .unsupported := by
  match a with
  | .ok t => simp [jsonFallback]
  | .error .valueError => simp [jsonFallback, liftParse_ne_unsupported]
  | .error .otherError => simp [jsonFallback]

/-- C10: for every uploaded file whose lowercased name ends in `.json`,
the loader first attempts the array-of-records parse and, on a
`ValueError`, falls back to the line-delimited parse; the
unsupported-file-type error is raised exactly for the names matching none
of the recognized extensions, never for a parse failure of a recognized
one. -/
theorem claim_C10_json_fallback_and_unsupported :
    (∀ (δ : Type) (name : String) (data : δ)
        (rP rC rL rA : δ → Except PErr Table),
        endsWithExt (lowerName name) ".json" = true →
        load_file name data rP rC rL rA = jsonFallback (rA data) (rL data))
  ∧ (∀ (δ : Type) (name : String) (data : δ)
        (rP rC rL rA : δ → Except PErr Table),
        load_file name data rP rC rL rA = .unsupported ↔
          (endsWithExt (lowerName name) ".parquet" = false ∧
           endsWithExt (lowerName name) ".csv" = false ∧
           endsWithExt (lowerName name) ".jsonl" = false ∧
           endsWithExt (lowerName name) ".jsonl.gz" = false ∧
           endsWithExt (lowerName name) ".json" = false)) := by
  constructor
  · intro δ name data rP rC rL rA hj
    have h1 : endsWithExt (lowerName name) ".parquet" = false :=
      endsWithExt_false_of hj (by decide) (by decide)
    have h2 : endsWithExt (lowerName name) ".csv" = false :=
      endsWithExt_false_of hj (by decide) (by decide)
    have h3 : endsWithExt (lowerName name) ".jsonl" = false :=
      endsWithExt_false_of hj (by decide) (by decide)
    have h4 : endsWithExt (lowerName name) ".jsonl.gz" = false :=
      endsWithExt_false_of hj (by decide) (by decide)
    simp [load_file, h1, h2, h3, h4, hj]
  · intro δ name data rP rC rL rA
    cases e1 : endsWithExt (lowerName name) ".parquet" <;>
      cases e2 : endsWithExt (lowerName name) ".csv" <;>
        cases e3 : endsWithExt (lowerName name) ".jsonl" <;>
          cases e4 : endsWithExt (lowerName name) ".jsonl.gz" <;>
            cases e5 : endsWithExt (lowerName name) ".json" <;>
              simp [load_file, e1, e2, e3, e4, e5, liftParse_ne_unsupported,
                jsonFallback_ne_unsupported]

/-- Witness for C10 at a concrete input: `a.JSON` lowercases to a `.json`
name, the array parse raises `ValueError`, and the loader returns the
line-delimited parse's table. -/
theorem claim_C10_witness :
    load_file "a.JSON" () stubVE stubVE stubOk stubVE = .ok stubTable :=
  (claim_C10_json_fallback_and_unsupported.1 Unit "a.JSON" () stubVE stubVE stubOk stubVE
    (by decide)).trans (by decide)

theorem numericStep_nil {df : Table} {c : String × Int × Int} {out : List Row}
    (h : numericStep df [] c = some out) : out = [] := by
  unfold numericStep at h
  cases hc : colIdx df c.1 <;> rw [hc] at h
  · simp at h
  · dsimp at h
    split at h <;> simp_all

theorem dtStep_nil {df : Table} {c : String × List Int} {out : List Row}
    (h : dtStep df [] c = some out) : out = [] := by
  unfold dtStep at h
  split at h
  · rename_i s e' heq
    cases hc : colIdx df c.1 <;> rw [hc] at h
    · simp at h
    · dsimp at h
      split at h <;> simp_all
  · simp_all

theorem catStep_nil {df : Table} {c : String × List String} {out : List Row}
    (h : catStep df [] c = some out) : out = [] := by
  unfold catStep at h
  split at h
  · simp_all
  · cases hc : colIdx df c.1 <;> rw [hc] at h <;> simp_all

theorem subStep_nil {df : Table} {c : String × String} {out : List Row}
    (h : subStep df [] c = some out) : out = [] := by
  unfold subStep at h
  split at h
  · simp_all
  · cases hc : colIdx df c.1 <;> rw [hc] at h <;> simp_all

theorem foldlM_nil_preserved {α : Type} {f : List Row → α → Option (List Row)}
    (hf : ∀ a out, f [] a = some out → out = []) :
    ∀ (l : List α) (out : List Row), l.foldlM f [] = some out → out = [] := by
  intro l
  induction l with
  | nil => intro out h; simpa using h.symm
  | cons a l ih =>
      intro out h
      rw [List.foldlM_cons] at h
      cases hfa : f [] a <;> rw [hfa] at h
      · simp at h
      · rename_i mid
        have : mid = [] := hf a mid hfa
        subst this
        exact ih out h

theorem applyFilters_rows_nil {df : Table} {sp : Spec} {t : Table}
    (h : applyFilters df sp = some t) (hw : sp.window.2 < sp.window.1) :
    t.rows = [] := by
  unfold applyFilters maskRows at h
  cases hti : colIdx df sp.timeCol <;> rw [hti] at h
  · simp at h
  · rename_i ti
    dsimp only [Option.bind_some, Option.some_bind, Option.bind_eq_bind] at h
    have hf0 : df.rows.filter (timePred sp.window.1 sp.window.2 ti) = [] := by
      rw [List.filter_eq_nil_iff]
      intro r hr
      unfold timePred
      cases hcd : cellDate (cellAt r ti) with
      | none => simp
      | some d =>
          simp only [Bool.and_eq_true, decide_eq_true_eq, not_and]
          intro h1 h2
          omega
    rw [hf0] at h
    cases h1 : sp.numeric.foldlM (numericStep df) [] <;> rw [h1] at h
    · simp at h
    · simp only [Option.some_bind] at h
      rename_i f1
      have : f1 = [] := foldlM_nil_preserved (fun _ _ hh => numericStep_nil hh) _ _ h1
      subst this
      cases h2 : sp.temporalC.foldlM (dtStep df) [] <;> rw [h2] at h
      · simp at h
      · simp only [Option.some_bind] at h
        rename_i f2
        have : f2 = [] := foldlM_nil_preserved (fun _ _ hh => dtStep_nil hh) _ _ h2
        subst this
        cases h3 : sp.categorical.foldlM (catStep df) [] <;> rw [h3] at h
        · simp at h
        · simp only [Option.some_bind] at h
          rename_i f3
          have : f3 = [] := foldlM_nil_preserved (fun _ _ hh => catStep_nil hh) _ _ h3
          subst this
          cases h4 : sp.textC.foldlM (subStep df) [] <;> rw [h4] at h
          · simp at h
          · simp only [Option.some_bind] at h
            rename_i f4
            have : f4 = [] := foldlM_nil_preserved (fun _ _ hh => subStep_nil hh) _ _ h4
            subst this
            unfold projectTable at h
            cases h5 : sp.projection.mapM (lookupCol ⟨df.schema, []⟩) <;> rw [h5] at h
            · simp at h
            · simp only [Option.bind_eq_bind, Option.some_bind, Option.pure_def,
                Option.some.injEq] at h
              rw [← h]
              simp

/-- C1: a submitted two-date window is rejected with `WindowTooLong`
exactly when `end - start` exceeds 30 days; a window of exactly 30 days is
not so rejected; and on rejection the pipeline produces no filtered table
and no artifact. -/
theorem claim_C1_window_boundary (df : Table) (raw : RawControls) (s e : Int)
    (hdr : raw.dateRange = [s, e])
    (hdt : ((df.schema.filter (fun col => col.dtype = .temporal)).map
      (fun col => col.name)).isEmpty = false) :
    (build_filters_form df raw = .error .windowTooLong ↔ 30 < e - s)
    ∧ (e - s = 30 → build_filters_form df raw ≠ .error .windowTooLong)
    ∧ (30 < e - s → mainPipeline df raw = none) := by
  have hbase : build_filters_form df raw =
      (if 30 < e - s then .error .windowTooLong
       else
         match applyFilters df (mkSpec df raw (s, e)) with
         | some t => .ok t
         | none => .error .keyError) := by
    unfold build_filters_form
    simp [hdt, hdr]
  have hiff : build_filters_form df raw = .error .windowTooLong ↔ 30 < e - s := by
    rw [hbase]
    by_cases h : 30 < e - s
    · simp [h]
    · simp only [h, if_false, iff_false]
      cases happly : applyFilters df (mkSpec df raw (s, e)) <;> simp
  refine ⟨hiff, ?_, ?_⟩
  · intro h30
    intro hcontra
    have := hiff.mp hcontra
    omega
  · intro h
    unfold mainPipeline
    rw [hiff.mpr h]

/-- Witness for C1: on a concrete one-row table, the 31-day window `[0, 31]`
is rejected with `WindowTooLong` and yields no artifact, while 30 days
would not be so rejected. -/
theorem claim_C1_witness :
    (build_filters_form fixtureTimeTable (fixtureRaw [0, 31]) = .error .windowTooLong
      ↔ 30 < (31 : Int) - 0)
    ∧ ((31 : Int) - 0 = 30 →
        build_filters_form fixtureTimeTable (fixtureRaw [0, 31]) ≠ .error .windowTooLong)
    ∧ (30 < (31 : Int) - 0 →
        mainPipeline fixtureTimeTable (fixtureRaw [0, 31]) = none) :=
  claim_C1_window_boundary fixtureTimeTable (fixtureRaw [0, 31]) 0 31 rfl (by decide)

/-- C9: a two-date window whose end precedes its start passes validation
(neither `IncompleteWindow` nor `WindowTooLong` nor the missing-time-column
error is raised), and the filtered table, when produced, has zero rows:
no date lies in the inverted inclusive window. -/
theorem claim_C9_inverted_window (df : Table) (raw : RawControls) (s e : Int)
    (hdr : raw.dateRange = [s, e]) (hlt : e < s)
    (hdt : ((df.schema.filter (fun col => col.dtype = .temporal)).map
      (fun col => col.name)).isEmpty = false) :
    (∀ err, build_filters_form df raw = .error err → err = .keyError)
    ∧ (∀ t, build_filters_form df raw = .ok t → t.rows = []) := by
  have h30 : ¬ (30 < e - s) := by omega
  have hbase : build_filters_form df raw =
      (match applyFilters df (mkSpec df raw (s, e)) with
       | some t => .ok t
       | none => .error .keyError) := by
    unfold build_filters_form
    simp [hdt, hdr, h30]
  constructor
  · intro err herr
    rw [hbase] at herr
    cases happly : applyFilters df (mkSpec df raw (s, e)) <;> rw [happly] at herr
    · simpa using herr.symm
    · simp at herr
  · intro t ht
    rw [hbase] at ht
    cases happly : applyFilters df (mkSpec df raw (s, e)) <;> rw [happly] at ht
    · simp at ht
    · rename_i t'
      have ht' : t' = t := by simpa using ht
      subst ht'
      exact applyFilters_rows_nil happly hlt

/-- Witness for C9: the inverted window `[5, 0]` on a concrete one-row
table passes validation and filters down to zero rows. -/
theorem claim_C9_witness :
    (∀ err, build_filters_form fixtureTimeTable (fixtureRaw [5, 0]) = .error err →
      err = .keyError)
    ∧ (∀ t, build_filters_form fixtureTimeTable (fixtureRaw [5, 0]) = .ok t →
        t.rows = []) :=
  claim_C9_inverted_window fixtureTimeTable (fixtureRaw [5, 0]) 5 0 rfl (by decide) (by decide)

theorem map_length_chunksGo {ρ : Type} (c : Nat) :
    ∀ (f : Nat) (l : List ρ),
      (chunksGo c f l).map List.length = chunkSizesGo c f l.length := by
  intro f
  induction f with
  | zero => intro l; cases l <;> rfl
  | succ f ih =>
      intro l
      cases l with
      | nil => rfl
      | cons x l =>
          show List.length ((x :: l).take c) :: _ = _
          rw [ih ((x :: l).drop c)]
          simp [chunkSizesGo, List.length_take, List.length_drop]

theorem flatten_chunksGo {ρ : Type} {c : Nat} (hc : 0 < c) :
    ∀ (f : Nat) (l : List ρ), l.length ≤ f → (chunksGo c f l).flatten = l := by
  intro f
  induction f with
  | zero =>
      intro l hl
      have : l = [] := by
        cases l
        · rfl
        · simp at hl
      subst this; rfl
  | succ f ih =>
      intro l hl
      cases l with
      | nil => rfl
      | cons x l =>
          show (x :: l).take c ++ (chunksGo c f ((x :: l).drop c)).flatten = x :: l
          rw [ih ((x :: l).drop c) (by
            rw [List.length_drop]
            simp only [List.length_cons] at hl ⊢
            omega)]
          exact List.take_append_drop c (x :: l)

theorem chunksGo_length_le {ρ : Type} (c : Nat) :
    ∀ (f : Nat) (l : List ρ) (part : List ρ),
      part ∈ chunksGo c f l → part.length ≤ c := by
  intro f
  induction f with
  | zero =>
      intro l part h
      cases l <;> simp [chunksGo] at h
  | succ f ih =>
      intro l part h
      cases l with
      | nil => simp [chunksGo] at h
      | cons x l =>
          have h' : part = (x :: l).take c ∨ part ∈ chunksGo c f ((x :: l).drop c) := by
            simpa [chunksGo] using h
          rcases h' with h' | h'
          · subst h'
            rw [List.length_take]
            exact Nat.min_le_left _ _
          · exact ih _ _ h'

theorem chunkSizesGo_sum {c : Nat} (hc : 0 < c) :
    ∀ (f n : Nat), n ≤ f → (chunkSizesGo c f n).sum = n := by
  intro f
  induction f with
  | zero =>
      intro n hn
      have : n = 0 := by omega
      subst this; rfl
  | succ f ih =>
      intro n hn
      cases n with
      | zero => rfl
      | succ m =>
          show min c (m + 1) + (chunkSizesGo c f (m + 1 - c)).sum = m + 1
          rw [ih (m + 1 - c) (by omega)]
          omega

theorem chunkSizesGo_dropLast {c : Nat} (hc : 0 < c) :
    ∀ (f n : Nat), n ≤ f →
      ∀ sz ∈ (chunkSizesGo c f n).dropLast, sz = c := by
  intro f
  induction f with
  | zero =>
      intro n hn sz hsz
      have : n = 0 := by omega
      subst this; simp [chunkSizesGo] at hsz
  | succ f ih =>
      intro n hn sz hsz
      cases n with
      | zero => simp [chunkSizesGo] at hsz
      | succ m =>
          by_cases hcm : m + 1 ≤ c
          · have hz : m + 1 - c = 0 := by omega
            have : chunkSizesGo c (f + 1) (m + 1) = [min c (m + 1)] := by
              show min c (m + 1) :: chunkSizesGo c f (m + 1 - c) = _
              rw [hz]
              cases f <;> rfl
            rw [this] at hsz
            simp at hsz
          · have hf1 : 1 ≤ f := by omega
            obtain ⟨k, hk⟩ : ∃ k, m + 1 - c = k + 1 := ⟨m - c, by omega⟩
            have hshape : chunkSizesGo c (f + 1) (m + 1) =
                min c (m + 1) :: chunkSizesGo c f (m + 1 - c) := rfl
            have hne : chunkSizesGo c f (m + 1 - c) ≠ [] := by
              obtain ⟨f', hf'⟩ : ∃ f', f = f' + 1 := ⟨f - 1, by omega⟩
              rw [hf', hk]
              show min c (k + 1) :: chunkSizesGo c f' (k + 1 - c) ≠ []
              simp
            rw [hshape, List.dropLast_cons_of_ne_nil hne] at hsz
            rcases List.mem_cons.mp hsz with h' | h'
            · omega
            · exact ih (m + 1 - c) (by omega) sz h'

theorem flatten_chunks {ρ : Type} {c : Nat} (hc : 0 < c) (l : List ρ) :
    (chunks l c).flatten = l :=
  flatten_chunksGo hc l.length l le_rfl

theorem map_length_chunks {ρ : Type} {l : List ρ} {c : Nat} :
    (chunks l c).map List.length = chunkSizes c l.length :=
  map_length_chunksGo c l.length l

theorem chunks_length_le {ρ : Type} {l : List ρ} {c : Nat} {part : List ρ}
    (h : part ∈ chunks l c) : part.length ≤ c :=
  chunksGo_length_le c l.length l part h

theorem chunkSizes_sum {c : Nat} (hc : 0 < c) (n : Nat) :
    (chunkSizes c n).sum = n :=
  chunkSizesGo_sum hc n n le_rfl

theorem chunkSizes_dropLast {c : Nat} (hc : 0 < c) (n : Nat) :
    ∀ sz ∈ (chunkSizes c n).dropLast, sz = c :=
  chunkSizesGo_dropLast hc n n le_rfl

/-- C6: the delimited-text export emits a single artifact when the
filtered row count is within the 500,000-row chunk limit; above it, the
archive's members are consecutive chunks of at most 500,000 rows, named
sequentially `filtered_part_1.csv`, `filtered_part_2.csv`, …, every
member but possibly the last holding exactly 500,000 rows, the chunks
concatenating back to the filtered rows in order (covering every row
exactly once), and the member row counts summing to the filtered row
count; at 1,200,000 rows the chunk sizes are exactly
500000/500000/200000. -/
theorem claim_C6_export_chunking (t : Table) :
    chunk_size = 500000
    ∧ (t.rows.length ≤ chunk_size → exportDelimited t.rows = .single t.rows)
    ∧ (chunk_size < t.rows.length →
        ∃ parts : List (String × List Row),
          exportDelimited t.rows = .archive parts
          ∧ parts.map Prod.fst =
              (List.range parts.length).map (fun i => partName (i + 1))
          ∧ (parts.map Prod.snd).flatten = t.rows
          ∧ ((parts.map Prod.snd).map List.length).sum = t.rows.length
          ∧ (∀ pr ∈ parts, pr.2.length ≤ chunk_size)
          ∧ (∀ pr ∈ parts.dropLast, pr.2.length = chunk_size))
    ∧ chunkSizes 500000 1200000 = [500000, 500000, 200000] := by
  have hc : 0 < chunk_size := by decide
  refine ⟨rfl, ?_, ?_, by decide⟩
  · intro hle
    unfold exportDelimited
    rw [if_pos hle]
  · intro hgt
    refine ⟨(chunks t.rows chunk_size).enum.map (fun q => (partName (q.1 + 1), q.2)),
      ?_, ?_, ?_, ?_, ?_, ?_⟩
    · unfold exportDelimited
      rw [if_neg (by omega)]
    · rw [List.map_map, List.length_map, List.enum_length]
      have h1 : (Prod.fst ∘ fun q : Nat × List Row => (partName (q.1 + 1), q.2)) =
          (fun i => partName (i + 1)) ∘ Prod.fst := rfl
      rw [h1, ← List.map_map, List.enum_map_fst]
    · rw [List.map_map]
      rw [show (Prod.snd ∘ fun q : Nat × List Row => (partName (q.1 + 1), q.2)) =
        Prod.snd from rfl]
      rw [List.enum_map_snd]
      exact flatten_chunks hc t.rows
    · rw [List.map_map, List.map_map]
      rw [show ((List.length ∘ Prod.snd) ∘
          fun q : Nat × List Row => (partName (q.1 + 1), q.2)) =
          List.length ∘ Prod.snd from rfl]
      rw [← List.map_map, List.enum_map_snd, map_length_chunks, chunkSizes_sum hc]
    · intro pr hpr
      rcases List.mem_map.mp hpr with ⟨q, hq, hq2⟩
      have hqc : q.2 ∈ chunks t.rows chunk_size := by
        rw [← List.enum_map_snd (chunks t.rows chunk_size)]
        exact List.mem_map.mpr ⟨q, hq, rfl⟩
      rw [← hq2]
      exact chunks_length_le hqc
    · intro pr hpr
      have hall : ((chunks t.rows chunk_size).enum.map
            (fun q : Nat × List Row => (partName (q.1 + 1), q.2))).map
              (fun w : String × List Row => w.2.length) =
          chunkSizes chunk_size t.rows.length := by
        rw [List.map_map]
        rw [show ((fun w : String × List Row => w.2.length) ∘
            fun q : Nat × List Row => (partName (q.1 + 1), q.2)) =
            (List.length ∘ Prod.snd) from rfl]
        rw [← List.map_map, List.enum_map_snd, map_length_chunks]
      have hmap : (((chunks t.rows chunk_size).enum.map
            (fun q : Nat × List Row => (partName (q.1 + 1), q.2))).dropLast).map
              (fun w : String × List Row => w.2.length) =
          (chunkSizes chunk_size t.rows.length).dropLast := by
        rw [List.map_dropLast, hall]
      have hlen : pr.2.length ∈ (chunkSizes chunk_size t.rows.length).dropLast := by
        rw [← hmap]
        exact List.mem_map.mpr ⟨pr, hpr, rfl⟩
      exact chunkSizes_dropLast hc _ _ hlen

/-- Witness for C6 at concrete inputs: a one-row table exports as a single
artifact, and a 500,001-row table takes the archive branch. -/
theorem claim_C6_witness :
    exportDelimited fixtureTimeTable.rows = .single fixtureTimeTable.rows
    ∧ ∃ parts : List (String × List Row),
        exportDelimited bigFixture.rows = .archive parts
        ∧ parts.map Prod.fst =
            (List.range parts.length).map (fun i => partName (i + 1))
        ∧ (parts.map Prod.snd).flatten = bigFixture.rows
        ∧ ((parts.map Prod.snd).map List.length).sum = bigFixture.rows.length
        ∧ (∀ pr ∈ parts, pr.2.length ≤ chunk_size)
        ∧ (∀ pr ∈ parts.dropLast, pr.2.length = chunk_size) :=
  ⟨(claim_C6_export_chunking fixtureTimeTable).2.1 (by decide),
   (claim_C6_export_chunking bigFixture).2.2.1 (by
      show chunk_size < (List.replicate 500001 ([] : Row)).length
      rw [List.length_replicate]
      decide)⟩

theorem parsedCount_le_length (p : String → Option (Int × Nat)) (cells : List Cell) :
    parsedCount p cells ≤ cells.length := by
  unfold parsedCount
  calc (cells.map (parseCell p)).countP (fun c => c.isSome)
      ≤ (cells.map (parseCell p)).length := List.countP_le_length _
    _ = cells.length := List.length_map _ _

theorem frac_gt_iff {k n : Nat} (hk : k ≤ n) :
    (k : ℚ) / (n : ℚ) > 4 / 5 ↔ 4 * n < 5 * k := by
  rcases Nat.eq_zero_or_pos n with hn | hn
  · subst hn
    interval_cases k
    norm_num
  · rw [gt_iff_lt, div_lt_div_iff (by norm_num) (by exact_mod_cast hn)]
    constructor
    · intro h
      have h' : (4 : ℚ) * n < 5 * k := by linarith [h]
      exact_mod_cast h'
    · intro h
      have h' : (4 : ℚ) * (n : ℚ) < 5 * (k : ℚ) := by exact_mod_cast h
      linarith

theorem coerces_iff_frac (p : String → Option (Int × Nat)) (t : Table) (i : Nat)
    (col : Col) (hcol : t.schema.get? i = some col) (hobj : col.dtype = .object) :
    coerces p t i = true ↔ parsedFrac p (colCells t i) > 4 / 5 := by
  unfold coerces
  rw [hcol]
  unfold parsedFrac
  rw [frac_gt_iff (parsedCount_le_length p (colCells t i))]
  simp [hobj]

theorem cellAt_coerceRow (p : String → Option (Int × Nat)) (t : Table) (i : Nat)
    (r : Row) :
    cellAt (r.enum.map (fun q =>
      if coerces p t q.1 then parseCell p q.2 else q.2)) i =
    (if coerces p t i then parseCell p (cellAt r i) else cellAt r i) := by
  unfold cellAt
  simp only [List.get?_eq_getElem?, List.getElem?_map, List.getElem?_enum]
  cases hco : coerces p t i <;> cases hr : r[i]? <;>
    simp [hco, hr, parseCell]

theorem colCells_autoCoerce (p : String → Option (Int × Nat)) (t : Table) (i : Nat) :
    colCells (autoCoerce p t) i =
      (if coerces p t i then (colCells t i).map (parseCell p) else colCells t i) := by
  unfold colCells autoCoerce
  simp only [List.map_map]
  cases hco : coerces p t i
  · simp only [Bool.false_eq_true, if_false]
    apply List.map_congr_left
    intro r _
    have h := cellAt_coerceRow p t i r
    rw [hco] at h
    simpa using h
  · simp only [if_true, List.map_map]
    apply List.map_congr_left
    intro r _
    have h := cellAt_coerceRow p t i r
    rw [hco] at h
    simpa using h

theorem schema_autoCoerce (p : String → Option (Int × Nat)) (t : Table) (i : Nat) :
    (autoCoerce p t).schema.get? i =
      (t.schema.get? i).map (fun c =>
        if coerces p t i then { c with dtype := .temporal } else c) := by
  unfold autoCoerce
  rw [List.get?_eq_getElem?, List.get?_eq_getElem?, List.getElem?_map,
    List.getElem?_enum]
  cases hr : t.schema[i]? <;> simp

/-- C2 (amended): on every object-dtype column, the coercion pass is total
(a malformed entry degrades to a missing parsed value, never an error) and
reclassifies the column Temporal, replacing its cells by their parses,
exactly when the fraction of successfully parsed values over **all** of
the column's values — missing entries counting as unparsed — exceeds 0.8;
at 0.8 or below the column keeps its dtype and its cells. -/
theorem claim_C2_coercion_threshold (p : String → Option (Int × Nat))
    (t : Table) (i : Nat) (col : Col)
    (hcol : t.schema.get? i = some col) (hobj : col.dtype = .object) :
    ((autoCoerce p t).schema.get? i = some { name := col.name, dtype := .temporal } ↔
      parsedFrac p (colCells t i) > 4 / 5)
    ∧ (parsedFrac p (colCells t i) > 4 / 5 →
        colCells (autoCoerce p t) i = (colCells t i).map (parseCell p))
    ∧ (¬ parsedFrac p (colCells t i) > 4 / 5 →
        (autoCoerce p t).schema.get? i = some col
        ∧ colCells (autoCoerce p t) i = colCells t i) := by
  have hiff := coerces_iff_frac p t i col hcol hobj
  refine ⟨?_, ?_, ?_⟩
  · rw [schema_autoCoerce, hcol]
    cases hco : coerces p t i with
    | true =>
        rw [hco] at hiff
        simp only [Option.map_some', if_true, Option.some.injEq]
        constructor
        · intro _
          exact hiff.mp rfl
        · intro _
          trivial
    | false =>
        rw [hco] at hiff
        simp only [Option.map_some', Bool.false_eq_true, if_false,
          Option.some.injEq]
        constructor
        · intro hcontr
          have hdt : col.dtype = Dtype.temporal := congrArg Col.dtype hcontr
          rw [hobj] at hdt
          exact absurd hdt (by simp)
        · intro hfrac
          exact absurd hfrac (by simpa using hiff)
  · intro hfrac
    have hco : coerces p t i = true := hiff.mpr hfrac
    rw [colCells_autoCoerce, hco, if_pos rfl]
  · intro hfrac
    have hco : coerces p t i = false := by
      cases hco : coerces p t i
      · rfl
      · exact absurd (hiff.mp hco) hfrac
    constructor
    · rw [schema_autoCoerce, hcol, hco]
      simp
    · rw [colCells_autoCoerce, hco]
      simp

/-- Counterexample to C2 as stated: in `fixtureObjTable` every non-missing
value parses (the claim's fraction is `1 > 0.8`, so the claim requires
reclassification), yet the code leaves the column untouched, because its
`parsed.notna().mean()` counts the missing entry in the denominator and
`4/5` does not exceed `0.8`. -/
theorem claim_C2_counterexample :
    specParsedFrac fixtureParser (colCells fixtureObjTable 0) > 4 / 5
    ∧ fixtureObjTable.schema.get? 0 = some ⟨"c", .object⟩
    ∧ autoCoerce fixtureParser fixtureObjTable = fixtureObjTable
    ∧ parsedFrac fixtureParser (colCells fixtureObjTable 0) = 4 / 5 := by
  refine ⟨?_, by decide, by decide, ?_⟩
  · have h : specParsedFrac fixtureParser (colCells fixtureObjTable 0) = 1 := by
      norm_num [specParsedFrac, parsedCount, colCells, fixtureObjTable, cellAt,
        parseCell, fixtureParser, List.countP, List.countP.go]
    rw [h]
    norm_num
  · norm_num [parsedFrac, parsedCount, colCells, fixtureObjTable, cellAt,
      parseCell, fixtureParser, List.countP, List.countP.go]

/-- Witness for C2 (amended): a five-row object column whose every value
parses is reclassified Temporal with parsed cells. -/
theorem claim_C2_witness :
    ((autoCoerce fixtureParser
        ⟨[⟨"c", .object⟩], [[some (.s "d")], [some (.s "d")], [some (.s "d")],
          [some (.s "d")], [some (.s "d")]]⟩).schema.get? 0 =
      some { name := "c", dtype := .temporal } ↔
      parsedFrac fixtureParser
        (colCells ⟨[⟨"c", .object⟩], [[some (.s "d")], [some (.s "d")],
          [some (.s "d")], [some (.s "d")], [some (.s "d")]]⟩ 0) > 4 / 5)
    ∧ (parsedFrac fixtureParser
        (colCells ⟨[⟨"c", .object⟩], [[some (.s "d")], [some (.s "d")],
          [some (.s "d")], [some (.s "d")], [some (.s "d")]]⟩ 0) > 4 / 5 →
        colCells (autoCoerce fixtureParser
          ⟨[⟨"c", .object⟩], [[some (.s "d")], [some (.s "d")], [some (.s "d")],
            [some (.s "d")], [some (.s "d")]]⟩) 0 =
          (colCells ⟨[⟨"c", .object⟩], [[some (.s "d")], [some (.s "d")],
            [some (.s "d")], [some (.s "d")], [some (.s "d")]]⟩ 0).map
              (parseCell fixtureParser))
    ∧ (¬ parsedFrac fixtureParser
        (colCells ⟨[⟨"c", .object⟩], [[some (.s "d")], [some (.s "d")],
          [some (.s "d")], [some (.s "d")], [some (.s "d")]]⟩ 0) > 4 / 5 →
        (autoCoerce fixtureParser
          ⟨[⟨"c", .object⟩], [[some (.s "d")], [some (.s "d")], [some (.s "d")],
            [some (.s "d")], [some (.s "d")]]⟩).schema.get? 0 =
          some ⟨"c", .object⟩
        ∧ colCells (autoCoerce fixtureParser
            ⟨[⟨"c", .object⟩], [[some (.s "d")], [some (.s "d")], [some (.s "d")],
              [some (.s "d")], [some (.s "d")]]⟩) 0 =
            colCells ⟨[⟨"c", .object⟩], [[some (.s "d")], [some (.s "d")],
              [some (.s "d")], [some (.s "d")], [some (.s "d")]]⟩ 0) :=
  claim_C2_coercion_threshold fixtureParser
    ⟨[⟨"c", .object⟩], [[some (.s "d")], [some (.s "d")], [some (.s "d")],
      [some (.s "d")], [some (.s "d")]]⟩ 0 ⟨"c", .object⟩ rfl rfl

/-- C3's failing input, evaluated: under the substring constraint `"nan"`,
the row whose text value is **missing** is retained (its `astype(str)`
rendering is the literal string `"nan"`, which the pattern matches
case-insensitively), while the present value `"abc"` is dropped — the
claim says a missing value never matches, but `na=False` is dead code
after `astype(str)`. -/
theorem claim_C3_missing_matches_nan :
    applyFilters fixtureSubTable fixtureSubSpec =
      some ⟨[⟨"t", .temporal⟩, ⟨"c", .object⟩], [[some (.ts 0 0), none]]⟩ := by
  decide

/-- C7: the columnar-binary (Parquet) backend cannot affect the
delimited-text artifact: the artifact component of the export step is the
same for any two backends (in particular for a failing and a succeeding
one), and a backend failure is reported as an unavailability value while
the delimited-text artifact stays exactly the export of the filtered
rows — the export step never aborts on the columnar backend. -/
theorem claim_C7_parquet_nonfatal {ε β : Type} (t : Table)
    (b1 b2 : Table → Except ε β) :
    (runExport t b1).1 = (runExport t b2).1
    ∧ (∀ err, b1 t = .error err →
        (runExport t b1).2 = (none, some err)
        ∧ (runExport t b1).1 = exportDelimited t.rows) := by
  constructor
  · rfl
  · intro err herr
    constructor
    · unfold runExport
      rw [herr]
    · rfl

/-- Witness for C7: with a backend that always fails, the export step
still produces the delimited-text artifact and reports the failure. -/
theorem claim_C7_witness :
    (runExport fixtureTimeTable (fun _ => (.error () : Except Unit Unit))).2
        = (none, some ())
    ∧ (runExport fixtureTimeTable (fun _ => (.error () : Except Unit Unit))).1
        = exportDelimited fixtureTimeTable.rows :=
  (claim_C7_parquet_nonfatal fixtureTimeTable
    (fun _ => (.error () : Except Unit Unit))
    (fun _ => (.error () : Except Unit Unit))).2 () rfl

theorem inert_fold {α : Type} (f : List Row → α → Option (List Row)) (x : α)
    (hx : ∀ rows, f rows x = some rows) (pre post : List α) (rows0 : List Row) :
    (pre ++ x :: post).foldlM f rows0 = (pre ++ post).foldlM f rows0 := by
  rw [List.foldlM_append, List.foldlM_append]
  cases hp : pre.foldlM f rows0 with
  | none => rfl
  | some m =>
      show ((x :: post).foldlM f m : Option (List Row)) = post.foldlM f m
      rw [List.foldlM_cons, hx m]
      rfl

theorem observedNumRange_spec {df : Table} {c : String} {lo hi : Int}
    (h : observedNumRange df c = some (lo, hi)) :
    ∃ i, colIdx df c = some i ∧ numMin df i = some lo ∧ numMax df i = some hi := by
  unfold observedNumRange at h
  cases hi0 : colIdx df c <;> rw [hi0] at h
  · simp at h
  · rename_i i
    simp only [Option.bind_eq_bind, Option.some_bind] at h
    cases h1 : numMin df i <;> rw [h1] at h
    · simp at h
    · simp only [Option.some_bind] at h
      cases h2 : numMax df i <;> rw [h2] at h
      · simp at h
      · simp at h
        exact ⟨i, rfl, by rw [h1, h.1], by rw [h2, h.2]⟩

theorem observedDateRange_spec {df : Table} {c : String} {lo hi : Int}
    (h : observedDateRange df c = some (lo, hi)) :
    ∃ i, colIdx df c = some i ∧ dateMin df i = some lo ∧ dateMax df i = some hi := by
  unfold observedDateRange at h
  cases hi0 : colIdx df c <;> rw [hi0] at h
  · simp at h
  · rename_i i
    simp only [Option.bind_eq_bind, Option.some_bind] at h
    cases h1 : dateMin df i <;> rw [h1] at h
    · simp at h
    · simp only [Option.some_bind] at h
      cases h2 : dateMax df i <;> rw [h2] at h
      · simp at h
      · simp at h
        exact ⟨i, rfl, by rw [h1, h.1], by rw [h2, h.2]⟩

theorem numericStep_inert {df : Table} {c : String} {lo hi : Int}
    (h : observedNumRange df c = some (lo, hi)) (rows : List Row) :
    numericStep df rows (c, lo, hi) = some rows := by
  obtain ⟨i, hi0, h1, h2⟩ := observedNumRange_spec h
  unfold numericStep
  rw [hi0]
  simp only [Option.bind_eq_bind, Option.some_bind]
  rw [if_pos ⟨h1, h2⟩]
  rfl

theorem dtStep_inert {df : Table} {c : String} {lo hi : Int}
    (h : observedDateRange df c = some (lo, hi)) (rows : List Row) :
    dtStep df rows (c, [lo, hi]) = some rows := by
  obtain ⟨i, hi0, h1, h2⟩ := observedDateRange_spec h
  show (do
    let i ← colIdx df c
    if dateMin df i = some lo ∧ dateMax df i = some hi then
      pure rows
    else
      pure (rows.filter (dtBetweenPred i lo hi))) = some rows
  rw [hi0]
  simp only [Option.bind_eq_bind, Option.some_bind]
  rw [if_pos ⟨h1, h2⟩]
  rfl

/-- C4: a numeric constraint equal to the column's full observed `(min,
max)` in the table the engine runs on is inert — the result, row set and
projection alike, is identical to running the same spec with that
constraint omitted (in particular no row with a missing value in that
column is dropped); likewise for a full-range date constraint on a
non-time temporal column. -/
theorem claim_C4_full_range_noop :
    (∀ (df : Table) (sp : Spec) (c : String) (lo hi : Int)
        (pre post : List (String × Int × Int)),
        sp.numeric = pre ++ (c, lo, hi) :: post →
        observedNumRange df c = some (lo, hi) →
        applyFilters df sp = applyFilters df { sp with numeric := pre ++ post })
    ∧ (∀ (df : Table) (sp : Spec) (c : String) (lo hi : Int)
        (pre post : List (String × List Int)),
        sp.temporalC = pre ++ (c, [lo, hi]) :: post →
        observedDateRange df c = some (lo, hi) →
        applyFilters df sp = applyFilters df { sp with temporalC := pre ++ post }) := by
  constructor
  · intro df sp c lo hi pre post hsp hrange
    have hmask : maskRows df sp = maskRows df { sp with numeric := pre ++ post } := by
      unfold maskRows
      rw [hsp]
      simp only [inert_fold (numericStep df) (c, lo, hi)
        (numericStep_inert hrange) pre post]
    unfold applyFilters
    rw [hmask]
  · intro df sp c lo hi pre post hsp hrange
    have hmask : maskRows df sp = maskRows df { sp with temporalC := pre ++ post } := by
      unfold maskRows
      rw [hsp]
      simp only [inert_fold (dtStep df) (c, [lo, hi])
        (dtStep_inert hrange) pre post]
    unfold applyFilters
    rw [hmask]

/-- Witness for C4: the full-range constraint `(1, 5)` on `v` gives the
same result as omitting it (the missing-valued row is kept either way). -/
theorem claim_C4_witness :
    applyFilters fixtureC4Table fixtureC4Spec =
      applyFilters fixtureC4Table
        { fixtureC4Spec with numeric := ([] : List (String × Int × Int)) ++ [] } :=
  claim_C4_full_range_noop.1 fixtureC4Table fixtureC4Spec "v" 1 5 [] [] rfl (by decide)

theorem filter_swap {α : Type} (p q : α → Bool) (l : List α) :
    (l.filter q).filter p = (l.filter p).filter q := by
  rw [List.filter_filter, List.filter_filter]
  apply List.filter_congr
  intro a _
  rw [Bool.and_comm]

theorem catStep_filter_comm (df : Table) (e : String × List String)
    (rows : List Row) (p : Row → Bool) :
    catStep df (rows.filter p) e = (catStep df rows e).map (fun m => m.filter p) := by
  unfold catStep
  by_cases hsel : e.2.isEmpty
  · rw [if_pos hsel, if_pos hsel]
    rfl
  · rw [if_neg hsel, if_neg hsel]
    cases hi : colIdx df e.1
    · rfl
    · simp only [Option.bind_eq_bind, Option.some_bind, Option.pure_def,
        Option.map_some']
      rw [filter_swap]

theorem subStep_filter_comm (df : Table) (e : String × String)
    (rows : List Row) (p : Row → Bool) :
    subStep df (rows.filter p) e = (subStep df rows e).map (fun m => m.filter p) := by
  unfold subStep
  by_cases htxt : e.2.isEmpty
  · rw [if_pos htxt, if_pos htxt]
    rfl
  · rw [if_neg htxt, if_neg htxt]
    cases hi : colIdx df e.1
    · rfl
    · simp only [Option.bind_eq_bind, Option.some_bind, Option.pure_def,
        Option.map_some']
      rw [filter_swap]

theorem foldlM_filter_comm {α : Type} {f : List Row → α → Option (List Row)}
    (hf : ∀ rows p e, f (rows.filter p) e = (f rows e).map (fun m => m.filter p)) :
    ∀ (l : List α) (rows : List Row) (p : Row → Bool),
      l.foldlM f (rows.filter p) = (l.foldlM f rows).map (fun m => m.filter p) := by
  intro l
  induction l with
  | nil => intro rows p; rfl
  | cons a l ih =>
      intro rows p
      rw [List.foldlM_cons, List.foldlM_cons, hf rows p a]
      cases hfa : f rows a
      · rfl
      · rename_i m
        simp only [Option.map_some']
        show (l.foldlM f (m.filter p) : Option (List Row)) =
          ((some m).bind (l.foldlM f)).map (fun m => m.filter p)
        rw [ih m p]
        rfl

theorem catStep_nonempty (df : Table) (c : String) (sel : List String) (i : Nat)
    (hsel : ¬ sel.isEmpty) (hi : colIdx df c = some i) (rows : List Row) :
    catStep df rows (c, sel) = some (rows.filter (isinPred i sel)) := by
  unfold catStep
  rw [if_neg hsel, hi]
  rfl

theorem cat_extract (df : Table) (c : String) (sel : List String) (i : Nat)
    (hsel : ¬ sel.isEmpty) (hi : colIdx df c = some i)
    (pre post : List (String × List String)) (textC : List (String × String))
    (f2 : List Row) :
    ((pre ++ (c, sel) :: post).foldlM (catStep df) f2).bind
        (textC.foldlM (subStep df)) =
      (((pre ++ post).foldlM (catStep df) f2).bind
        (textC.foldlM (subStep df))).map (fun m => m.filter (isinPred i sel)) := by
  rw [List.foldlM_append, List.foldlM_append]
  cases hp : pre.foldlM (catStep df) f2 with
  | none => rfl
  | some m =>
      simp only [Option.bind_eq_bind, Option.some_bind]
      rw [List.foldlM_cons, catStep_nonempty df c sel i hsel hi m]
      simp only [Option.bind_eq_bind, Option.some_bind]
      rw [foldlM_filter_comm (fun rows p e => catStep_filter_comm df e rows p) post m (isinPred i sel)]
      cases hq : post.foldlM (catStep df) m with
      | none => rfl
      | some n =>
          simp only [Option.map_some', Option.some_bind]
          rw [foldlM_filter_comm (fun rows p e => subStep_filter_comm df e rows p) textC n (isinPred i sel)]

theorem catStep_empty (df : Table) (c : String) (rows : List Row) :
    catStep df rows (c, ([] : List String)) = some rows := by
  unfold catStep
  rfl

/-- C5: an empty selected-value set on a categorical column imposes no
constraint at all — the spec behaves exactly as if the entry were absent;
a non-empty selected set refines the otherwise-filtered row list by
exactly the rows whose value in that column is a member of the set (a
missing value is never a member, hence always excluded by the
constraint). -/
theorem claim_C5_categorical_selection :
    (∀ (df : Table) (sp : Spec) (c : String)
        (pre post : List (String × List String)),
        sp.categorical = pre ++ (c, ([] : List String)) :: post →
        applyFilters df sp = applyFilters df { sp with categorical := pre ++ post })
    ∧ (∀ (df : Table) (sp : Spec) (c : String) (sel : List String) (i : Nat)
        (pre post : List (String × List String)),
        sp.categorical = pre ++ (c, sel) :: post →
        sel ≠ [] →
        colIdx df c = some i →
        maskRows df sp =
          (maskRows df { sp with categorical := pre ++ post }).map
            (fun m => m.filter (isinPred i sel))) := by
  constructor
  · intro df sp c pre post hsp
    have hmask : maskRows df sp =
        maskRows df { sp with categorical := pre ++ post } := by
      unfold maskRows
      rw [hsp]
      simp only [inert_fold (catStep df) (c, ([] : List String))
        (fun rows => catStep_empty df c rows) pre post]
    unfold applyFilters
    rw [hmask]
  · intro df sp c sel i pre post hsp hsel hi
    have hsel' : ¬ sel.isEmpty := by
      cases sel
      · exact absurd rfl hsel
      · simp
    unfold maskRows
    rw [hsp]
    dsimp only
    cases hti : colIdx df sp.timeCol
    · rfl
    · rename_i ti
      simp only [Option.bind_eq_bind, Option.some_bind]
      cases h1 : sp.numeric.foldlM (numericStep df)
          (df.rows.filter (timePred sp.window.1 sp.window.2 ti))
      · rfl
      · rename_i f1
        simp only [Option.some_bind]
        cases h2 : sp.temporalC.foldlM (dtStep df) f1
        · rfl
        · rename_i f2
          simp only [Option.some_bind]
          exact cat_extract df c sel i hsel' hi pre post sp.textC f2

/-- Witness for C5: the empty selection behaves as an absent constraint,
and the selection `{"a"}` refines the unconstrained result by membership. -/
theorem claim_C5_witness :
    applyFilters fixtureC5Table (fixtureC5Spec []) =
      applyFilters fixtureC5Table
        { fixtureC5Spec [] with
          categorical := ([] : List (String × List String)) ++ [] }
    ∧ maskRows fixtureC5Table (fixtureC5Spec ["a"]) =
        (maskRows fixtureC5Table
          { fixtureC5Spec ["a"] with
            categorical := ([] : List (String × List String)) ++ [] }).map
          (fun m => m.filter (isinPred 1 ["a"])) :=
  ⟨claim_C5_categorical_selection.1 fixtureC5Table (fixtureC5Spec []) "c" [] [] rfl,
   claim_C5_categorical_selection.2 fixtureC5Table (fixtureC5Spec ["a"]) "c" ["a"] 1
     [] [] rfl (by decide) (by decide)⟩

theorem colIdx_get {t : Table} {c : String} {i : Nat} (h : colIdx t c = some i) :
    ∃ col, t.schema.get? i = some col ∧ col.name = c := by
  unfold colIdx at h
  have hp := List.findIdx?_of_eq_some h
  cases hg : t.schema[i]? with
  | none => rw [hg] at hp; simp at hp
  | some col =>
      rw [hg] at hp
      simp only at hp
      refine ⟨col, ?_, ?_⟩
      · rw [List.get?_eq_getElem?, hg]
      · exact eq_of_beq hp

theorem lookupCol_eq {t : Table} {c : String} {i : Nat} {col : Col}
    (h : lookupCol t c = some (i, col)) :
    colIdx t c = some i ∧ t.schema.get? i = some col ∧ col.name = c := by
  unfold lookupCol at h
  cases h0 : colIdx t c <;> rw [h0] at h
  · simp at h
  · rename_i j
    simp only [Option.some_bind] at h
    cases h1 : t.schema.get? j <;> rw [h1] at h
    · simp at h
    · rename_i col0
      simp only [Option.map_some', Option.some.injEq, Prod.mk.injEq] at h
      obtain ⟨h2, h3⟩ := h
      subst h2
      subst h3
      obtain ⟨col', hcol', hname⟩ := colIdx_get h0
      rw [h1] at hcol'
      have : col' = col0 := by simpa using hcol'.symm
      subst this
      exact ⟨rfl, h1, hname⟩

theorem lookupCol_isSome {t : Table} {c : String}
    (h : ∃ col ∈ t.schema, col.name = c) : (lookupCol t c).isSome := by
  obtain ⟨col, hmem, hname⟩ := h
  have hfind : (t.schema.findIdx? (fun col => col.name == c)).isSome := by
    rw [List.findIdx?_isSome, List.any_eq_true]
    refine ⟨col, hmem, ?_⟩
    rw [hname]
    simp
  unfold lookupCol colIdx
  cases hf : t.schema.findIdx? (fun col => col.name == c) with
  | none => rw [hf] at hfind; simp at hfind
  | some i =>
      obtain ⟨col', hcol', _⟩ := colIdx_get (show colIdx t c = some i from hf)
      simp only [Option.some_bind, hcol', Option.map_some', Option.isSome_some]

theorem mapM_option_get {α β : Type} {g : α → Option β} :
    ∀ {l : List α} {ps : List β}, l.mapM g = some ps →
      ps.length = l.length ∧ ∀ k, ps.get? k = (l.get? k).bind g := by
  intro l
  induction l with
  | nil =>
      intro ps h
      simp only [List.mapM_nil, Option.pure_def, Option.some.injEq] at h
      subst h
      exact ⟨rfl, fun k => by simp⟩
  | cons a l ih =>
      intro ps h
      rw [List.mapM_cons] at h
      cases ha : g a <;> rw [ha] at h
      · simp at h
      · rename_i b
        simp only [Option.bind_eq_bind, Option.some_bind] at h
        cases hl : l.mapM g <;> rw [hl] at h
        · simp at h
        · rename_i bs
          simp only [Option.bind_eq_bind, Option.some_bind, Option.pure_def,
            Option.some.injEq] at h
          obtain ⟨hlen, hget⟩ := ih hl
          constructor
          · rw [← h]
            simp [hlen]
          · intro k
            rw [← h]
            cases k with
            | zero => simp [ha]
            | succ k => simpa using hget k

theorem mapM_option_isSome {α β : Type} {g : α → Option β} :
    ∀ {l : List α}, (∀ a ∈ l, (g a).isSome) → (l.mapM g).isSome := by
  intro l
  induction l with
  | nil => intro _; rw [List.mapM_nil]; simp
  | cons a l ih =>
      intro h
      rw [List.mapM_cons]
      cases ha : g a with
      | none =>
          have := h a (by simp)
          rw [ha] at this
          simp at this
      | some b =>
          cases hl : l.mapM g with
          | none =>
              have := ih (fun x hx => h x (by simp [hx]))
              rw [hl] at this
              simp at this
          | some bs => simp

theorem foldlM_numeric_sound {df : Table} :
    ∀ {l : List (String × Int × Int)} {rows out : List Row},
      l.foldlM (numericStep df) rows = some out →
      (∀ r ∈ out, r ∈ rows)
      ∧ (∀ e ∈ l, ∀ i, colIdx df e.1 = some i →
          (numMin df i = some e.2.1 ∧ numMax df i = some e.2.2)
          ∨ (∀ r ∈ out, betweenPred i e.2.1 e.2.2 r = true)) := by
  intro l
  induction l with
  | nil =>
      intro rows out h
      have hout : out = rows := by simpa using h.symm
      subst hout
      exact ⟨fun r hr => hr, by simp⟩
  | cons a l ih =>
      intro rows out h
      rw [List.foldlM_cons] at h
      cases ha : numericStep df rows a <;> rw [ha] at h
      · simp at h
      · rename_i mid
        simp only [Option.bind_eq_bind, Option.some_bind] at h
        obtain ⟨hsub, hrest⟩ := ih h
        unfold numericStep at ha
        cases hi0 : colIdx df a.1 <;> rw [hi0] at ha
        · simp at ha
        · rename_i i0
          simp only [Option.bind_eq_bind, Option.some_bind] at ha
          by_cases hinert : numMin df i0 = some a.2.1 ∧ numMax df i0 = some a.2.2
          · rw [if_pos hinert] at ha
            have hmid : mid = rows := by simpa using ha.symm
            subst hmid
            refine ⟨hsub, ?_⟩
            intro e he i hi
            rcases List.mem_cons.mp he with he | he
            · subst he
              rw [hi0] at hi
              injection hi with hii
              subst hii
              exact Or.inl hinert
            · exact hrest e he i hi
          · rw [if_neg hinert] at ha
            have hmid : mid = rows.filter (betweenPred i0 a.2.1 a.2.2) := by
              simpa using ha.symm
            subst hmid
            refine ⟨fun r hr => List.mem_of_mem_filter (hsub r hr), ?_⟩
            intro e he i hi
            rcases List.mem_cons.mp he with he | he
            · subst he
              rw [hi0] at hi
              injection hi with hii
              subst hii
              exact Or.inr (fun r hr => List.of_mem_filter (hsub r hr))
            · exact hrest e he i hi

theorem foldlM_dt_sound {df : Table} :
    ∀ {l : List (String × List Int)} {rows out : List Row},
      l.foldlM (dtStep df) rows = some out →
      (∀ r ∈ out, r ∈ rows)
      ∧ (∀ e ∈ l, ∀ s e' i, e.2 = [s, e'] → colIdx df e.1 = some i →
          (dateMin df i = some s ∧ dateMax df i = some e')
          ∨ (∀ r ∈ out, dtBetweenPred i s e' r = true)) := by
  intro l
  induction l with
  | nil =>
      intro rows out h
      have hout : out = rows := by simpa using h.symm
      subst hout
      exact ⟨fun r hr => hr, by simp⟩
  | cons a l ih =>
      intro rows out h
      rw [List.foldlM_cons] at h
      cases ha : dtStep df rows a <;> rw [ha] at h
      · simp at h
      · rename_i mid
        simp only [Option.bind_eq_bind, Option.some_bind] at h
        obtain ⟨hsub, hrest⟩ := ih h
        unfold dtStep at ha
        split at ha
        · rename_i s0 e0 heq
          cases hi0 : colIdx df a.1 <;> rw [hi0] at ha
          · simp at ha
          · rename_i i0
            simp only [Option.bind_eq_bind, Option.some_bind] at ha
            by_cases hinert : dateMin df i0 = some s0 ∧ dateMax df i0 = some e0
            · rw [if_pos hinert] at ha
              have hmid : mid = rows := by simpa using ha.symm
              subst hmid
              refine ⟨hsub, ?_⟩
              intro e he s e' i hse hi
              rcases List.mem_cons.mp he with he | he
              · subst he
                rw [heq] at hse
                injection hse with h1 hse
                injection hse with h2 _
                subst h1
                subst h2
                rw [hi0] at hi
                injection hi with hii
                subst hii
                exact Or.inl hinert
              · exact hrest e he s e' i hse hi
            · rw [if_neg hinert] at ha
              have hmid : mid = rows.filter (dtBetweenPred i0 s0 e0) := by
                simpa using ha.symm
              subst hmid
              refine ⟨fun r hr => List.mem_of_mem_filter (hsub r hr), ?_⟩
              intro e he s e' i hse hi
              rcases List.mem_cons.mp he with he | he
              · subst he
                rw [heq] at hse
                injection hse with h1 hse
                injection hse with h2 _
                subst h1
                subst h2
                rw [hi0] at hi
                injection hi with hii
                subst hii
                exact Or.inr (fun r hr => List.of_mem_filter (hsub r hr))
              · exact hrest e he s e' i hse hi
        · rename_i hnot2
          have hmid : mid = rows := by simpa using ha.symm
          subst hmid
          refine ⟨hsub, ?_⟩
          intro e he s e' i hse hi
          rcases List.mem_cons.mp he with he | he
          · subst he
            exact absurd hse (hnot2 s e')
          · exact hrest e he s e' i hse hi

theorem foldlM_cat_sound {df : Table} :
    ∀ {l : List (String × List String)} {rows out : List Row},
      l.foldlM (catStep df) rows = some out →
      (∀ r ∈ out, r ∈ rows)
      ∧ (∀ e ∈ l, e.2.isEmpty = false → ∀ i, colIdx df e.1 = some i →
          ∀ r ∈ out, isinPred i e.2 r = true) := by
  intro l
  induction l with
  | nil =>
      intro rows out h
      have hout : out = rows := by simpa using h.symm
      subst hout
      exact ⟨fun r hr => hr, by simp⟩
  | cons a l ih =>
      intro rows out h
      rw [List.foldlM_cons] at h
      cases ha : catStep df rows a <;> rw [ha] at h
      · simp at h
      · rename_i mid
        simp only [Option.bind_eq_bind, Option.some_bind] at h
        obtain ⟨hsub, hrest⟩ := ih h
        unfold catStep at ha
        by_cases hemp : a.2.isEmpty
        · rw [if_pos hemp] at ha
          have hmid : mid = rows := by simpa using ha.symm
          subst hmid
          refine ⟨hsub, ?_⟩
          intro e he hne i hi
          rcases List.mem_cons.mp he with he | he
          · subst he
            rw [hemp] at hne
            simp at hne
          · exact hrest e he hne i hi
        · rw [if_neg hemp] at ha
          cases hi0 : colIdx df a.1 <;> rw [hi0] at ha
          · simp at ha
          · rename_i i0
            simp only [Option.bind_eq_bind, Option.some_bind] at ha
            have hmid : mid = rows.filter (isinPred i0 a.2) := by simpa using ha.symm
            subst hmid
            refine ⟨fun r hr => List.mem_of_mem_filter (hsub r hr), ?_⟩
            intro e he hne i hi
            rcases List.mem_cons.mp he with he | he
            · subst he
              rw [hi0] at hi
              injection hi with hii
              subst hii
              exact fun r hr => List.of_mem_filter (hsub r hr)
            · exact hrest e he hne i hi

theorem foldlM_sub_sound {df : Table} :
    ∀ {l : List (String × String)} {rows out : List Row},
      l.foldlM (subStep df) rows = some out →
      (∀ r ∈ out, r ∈ rows)
      ∧ (∀ e ∈ l, e.2.isEmpty = false → ∀ i, colIdx df e.1 = some i →
          ∀ r ∈ out, subPred i e.2 r = true) := by
  intro l
  induction l with
  | nil =>
      intro rows out h
      have hout : out = rows := by simpa using h.symm
      subst hout
      exact ⟨fun r hr => hr, by simp⟩
  | cons a l ih =>
      intro rows out h
      rw [List.foldlM_cons] at h
      cases ha : subStep df rows a <;> rw [ha] at h
      · simp at h
      · rename_i mid
        simp only [Option.bind_eq_bind, Option.some_bind] at h
        obtain ⟨hsub, hrest⟩ := ih h
        unfold subStep at ha
        by_cases hemp : a.2.isEmpty
        · rw [if_pos hemp] at ha
          have hmid : mid = rows := by simpa using ha.symm
          subst hmid
          refine ⟨hsub, ?_⟩
          intro e he hne i hi
          rcases List.mem_cons.mp he with he | he
          · subst he
            rw [hemp] at hne
            simp at hne
          · exact hrest e he hne i hi
        · rw [if_neg hemp] at ha
          cases hi0 : colIdx df a.1 <;> rw [hi0] at ha
          · simp at ha
          · rename_i i0
            simp only [Option.bind_eq_bind, Option.some_bind] at ha
            have hmid : mid = rows.filter (subPred i0 a.2) := by simpa using ha.symm
            subst hmid
            refine ⟨fun r hr => List.mem_of_mem_filter (hsub r hr), ?_⟩
            intro e he hne i hi
            rcases List.mem_cons.mp he with he | he
            · subst he
              rw [hi0] at hi
              injection hi with hii
              subst hii
              exact fun r hr => List.of_mem_filter (hsub r hr)
            · exact hrest e he hne i hi

theorem maskRows_sound {df : Table} {sp : Spec} {f4 : List Row}
    (h : maskRows df sp = some f4) :
    ∃ ti, colIdx df sp.timeCol = some ti
    ∧ (∀ r ∈ f4, r ∈ df.rows)
    ∧ (∀ r ∈ f4, timePred sp.window.1 sp.window.2 ti r = true)
    ∧ (∀ e ∈ sp.numeric, ∀ i, colIdx df e.1 = some i →
        (numMin df i = some e.2.1 ∧ numMax df i = some e.2.2)
        ∨ (∀ r ∈ f4, betweenPred i e.2.1 e.2.2 r = true))
    ∧ (∀ e ∈ sp.temporalC, ∀ s e' i, e.2 = [s, e'] → colIdx df e.1 = some i →
        (dateMin df i = some s ∧ dateMax df i = some e')
        ∨ (∀ r ∈ f4, dtBetweenPred i s e' r = true))
    ∧ (∀ e ∈ sp.categorical, e.2.isEmpty = false → ∀ i, colIdx df e.1 = some i →
        ∀ r ∈ f4, isinPred i e.2 r = true)
    ∧ (∀ e ∈ sp.textC, e.2.isEmpty = false → ∀ i, colIdx df e.1 = some i →
        ∀ r ∈ f4, subPred i e.2 r = true) := by
  unfold maskRows at h
  cases hti : colIdx df sp.timeCol <;> rw [hti] at h
  · simp at h
  · rename_i ti
    simp only [Option.bind_eq_bind, Option.some_bind] at h
    cases h1 : sp.numeric.foldlM (numericStep df)
        (df.rows.filter (timePred sp.window.1 sp.window.2 ti)) <;> rw [h1] at h
    · simp at h
    · rename_i f1
      simp only [Option.some_bind] at h
      cases h2 : sp.temporalC.foldlM (dtStep df) f1 <;> rw [h2] at h
      · simp at h
      · rename_i f2
        simp only [Option.some_bind] at h
        cases h3 : sp.categorical.foldlM (catStep df) f2 <;> rw [h3] at h
        · simp at h
        · rename_i f3
          simp only [Option.some_bind] at h
          obtain ⟨hs1, hp1⟩ := foldlM_numeric_sound h1
          obtain ⟨hs2, hp2⟩ := foldlM_dt_sound h2
          obtain ⟨hs3, hp3⟩ := foldlM_cat_sound h3
          obtain ⟨hs4, hp4⟩ := foldlM_sub_sound h
          have hsub41 : ∀ r ∈ f4, r ∈ f1 := fun r hr =>
            hs2 r (hs3 r (hs4 r hr))
          have hsub40 : ∀ r ∈ f4,
              r ∈ df.rows.filter (timePred sp.window.1 sp.window.2 ti) :=
            fun r hr => hs1 r (hsub41 r hr)
          refine ⟨ti, rfl, ?_, ?_, ?_, ?_, ?_, ?_⟩
          · exact fun r hr => List.mem_of_mem_filter (hsub40 r hr)
          · exact fun r hr => List.of_mem_filter (hsub40 r hr)
          · intro e he i hi
            rcases hp1 e he i hi with hin | hall
            · exact Or.inl hin
            · exact Or.inr (fun r hr => hall r (hsub41 r hr))
          · intro e he s e' i hse hi
            rcases hp2 e he s e' i hse hi with hin | hall
            · exact Or.inl hin
            · exact Or.inr (fun r hr => hall r (hs3 r (hs4 r hr)))
          · intro e he hne i hi r hr
            exact hp3 e he hne i hi r (hs4 r hr)
          · intro e he hne i hi r hr
            exact hp4 e he hne i hi r hr

theorem applyFilters_decomp {df : Table} {sp : Spec} {t1 : Table}
    (h : applyFilters df sp = some t1) :
    ∃ f4 pairs, maskRows df sp = some f4
    ∧ sp.projection.mapM (lookupCol df) = some pairs
    ∧ t1 = ⟨pairs.map (fun pc => pc.2),
            f4.map (fun r => pairs.map (fun pc => cellAt r pc.1))⟩ := by
  unfold applyFilters projectTable at h
  cases hm : maskRows df sp <;> rw [hm] at h
  · simp at h
  · rename_i f4
    simp only [Option.bind_eq_bind, Option.some_bind] at h
    cases hp : sp.projection.mapM (lookupCol ⟨df.schema, f4⟩) <;> rw [hp] at h
    · simp at h
    · rename_i pairs
      simp only [Option.some_bind, Option.pure_def, Option.some.injEq] at h
      exact ⟨f4, pairs, rfl, hp, h.symm⟩

theorem get?_map_eq {α β : Type} (f : α → β) (l : List α) (k : Nat) :
    (l.map f).get? k = (l.get? k).map f := by
  rw [List.get?_eq_getElem?, List.get?_eq_getElem?, List.getElem?_map]

theorem proj_names {df : Table} {cols : List String} {pairs : List (Nat × Col)}
    (hm : cols.mapM (lookupCol df) = some pairs) :
    pairs.map (fun pc => pc.2.name) = cols := by
  obtain ⟨hlen, hget⟩ := mapM_option_get hm
  apply List.ext_get?
  intro k
  rw [get?_map_eq, hget k]
  cases hc : cols.get? k with
  | none => simp
  | some c =>
      have hk : k < cols.length := by
        by_contra hk
        rw [List.get?_eq_getElem?, List.getElem?_eq_none (by omega)] at hc
        exact Option.noConfusion hc
      have hps : (pairs.get? k).isSome := by
        rw [List.get?_eq_getElem?]
        rcases hx : pairs[k]? with _ | x
        · rw [List.getElem?_eq_none_iff] at hx
          omega
        · simp
      rw [hget k, hc] at hps
      simp only [Option.some_bind] at hps
      obtain ⟨pr, hpr⟩ := Option.isSome_iff_exists.mp hps
      obtain ⟨i, col⟩ := pr
      obtain ⟨_, _, hname⟩ := lookupCol_eq hpr
      simp only [Option.some_bind, hpr, Option.map_some']
      rw [hname]

theorem findIdx_proj {df : Table} {cols : List String} {pairs : List (Nat × Col)}
    (hm : cols.mapM (lookupCol df) = some pairs)
    {c : String} (hc : c ∈ cols) :
    ∃ k i col,
      (pairs.map (fun pc => pc.2)).findIdx? (fun col => col.name == c) = some k
      ∧ pairs.get? k = some (i, col)
      ∧ lookupCol df c = some (i, col) := by
  obtain ⟨hlen, hget⟩ := mapM_option_get hm
  have hnames := proj_names hm
  have hexists : ∃ col ∈ pairs.map (fun pc => pc.2), (col.name == c) = true := by
    rw [← hnames] at hc
    obtain ⟨pc, hpc, hpcn⟩ := List.mem_map.mp hc
    exact ⟨pc.2, List.mem_map.mpr ⟨pc, hpc, rfl⟩, by rw [hpcn]; simp⟩
  have hsome : ((pairs.map (fun pc => pc.2)).findIdx?
      (fun col => col.name == c)).isSome := by
    rw [List.findIdx?_isSome, List.any_eq_true]
    exact hexists
  obtain ⟨k, hk⟩ := Option.isSome_iff_exists.mp hsome
  have hfound := List.findIdx?_of_eq_some hk
  cases hgk : (pairs.map (fun pc => pc.2))[k]? with
  | none => rw [hgk] at hfound; simp at hfound
  | some colk =>
      rw [hgk] at hfound
      simp only at hfound
      have hcolk : colk.name = c := eq_of_beq hfound
      have hpk : (pairs.get? k).isSome := by
        obtain ⟨hlt, _⟩ := List.getElem?_eq_some.mp hgk
        rw [List.length_map] at hlt
        rw [List.get?_eq_getElem?]
        rcases hx : pairs[k]? with _ | x
        · rw [List.getElem?_eq_none_iff] at hx
          omega
        · simp
      obtain ⟨pr, hpr⟩ := Option.isSome_iff_exists.mp hpk
      obtain ⟨i, col⟩ := pr
      have hcol : col = colk := by
        have := get?_map_eq (fun pc : Nat × Col => pc.2) pairs k
        rw [← List.get?_eq_getElem?] at hgk
        rw [hgk, hpr] at this
        simpa using this.symm
      subst hcol
      have hck : cols.get? k = some c := by
        rw [← hnames, get?_map_eq, hpr]
        simp [hcolk]
      have hlk : lookupCol df c = some (i, col) := by
        have := hget k
        rw [hpr, hck] at this
        simpa using this.symm
      exact ⟨k, i, col, hk, hpr, hlk⟩

theorem cellAt_projRow {pairs : List (Nat × Col)} {k i : Nat} {col : Col}
    (hk : pairs.get? k = some (i, col)) (r : Row) :
    cellAt (pairs.map (fun pc => cellAt r pc.1)) k = cellAt r i := by
  show ((pairs.map (fun pc => cellAt r pc.1)).get? k).getD none = cellAt r i
  rw [get?_map_eq, hk]
  rfl

theorem timePred_lift {pairs : List (Nat × Col)} {k i : Nat} {col : Col}
    (hk : pairs.get? k = some (i, col)) (w1 w2 : Int) (r : Row) :
    timePred w1 w2 k (pairs.map (fun pc => cellAt r pc.1)) = timePred w1 w2 i r := by
  unfold timePred
  rw [cellAt_projRow hk]

theorem betweenPred_lift {pairs : List (Nat × Col)} {k i : Nat} {col : Col}
    (hk : pairs.get? k = some (i, col)) (lo hi : Int) (r : Row) :
    betweenPred k lo hi (pairs.map (fun pc => cellAt r pc.1)) =
      betweenPred i lo hi r := by
  unfold betweenPred
  rw [cellAt_projRow hk]

theorem dtBetweenPred_lift {pairs : List (Nat × Col)} {k i : Nat} {col : Col}
    (hk : pairs.get? k = some (i, col)) (s e : Int) (r : Row) :
    dtBetweenPred k s e (pairs.map (fun pc => cellAt r pc.1)) =
      dtBetweenPred i s e r := by
  unfold dtBetweenPred
  rw [cellAt_projRow hk]

theorem isinPred_lift {pairs : List (Nat × Col)} {k i : Nat} {col : Col}
    (hk : pairs.get? k = some (i, col)) (sel : List String) (r : Row) :
    isinPred k sel (pairs.map (fun pc => cellAt r pc.1)) = isinPred i sel r := by
  unfold isinPred
  rw [cellAt_projRow hk]

theorem subPred_lift {pairs : List (Nat × Col)} {k i : Nat} {col : Col}
    (hk : pairs.get? k = some (i, col)) (txt : String) (r : Row) :
    subPred k txt (pairs.map (fun pc => cellAt r pc.1)) = subPred i txt r := by
  unfold subPred
  rw [cellAt_projRow hk]

theorem int_min?_le {l : List Int} {a b : Int} (h : l.min? = some a) (hb : b ∈ l) :
    a ≤ b :=
  ((List.le_min?_iff (fun _ _ _ => le_min_iff) h).mp le_rfl) b hb

theorem int_le_max? {l : List Int} {a b : Int} (h : l.max? = some a) (hb : b ∈ l) :
    b ≤ a :=
  ((List.max?_le_iff (fun _ _ _ => max_le_iff) h).mp le_rfl) b hb

theorem between_of_inert {df : Table} {i : Nat} {lo hi : Int} {r : Row}
    (hr : r ∈ df.rows)
    (hmin : numMin df i = some lo) (hmax : numMax df i = some hi)
    (hsome : (cellNum (cellAt r i)).isSome) :
    betweenPred i lo hi r = true := by
  obtain ⟨v, hv⟩ := Option.isSome_iff_exists.mp hsome
  have hvmem : v ∈ (colCells df i).filterMap cellNum := by
    rw [List.mem_filterMap]
    exact ⟨cellAt r i, List.mem_map.mpr ⟨r, hr, rfl⟩, hv⟩
  have h1 : lo ≤ v := int_min?_le hmin hvmem
  have h2 : v ≤ hi := int_le_max? hmax hvmem
  unfold betweenPred
  rw [hv]
  simp [h1, h2]

theorem dt_between_of_inert {df : Table} {i : Nat} {s e : Int} {r : Row}
    (hr : r ∈ df.rows)
    (hmin : dateMin df i = some s) (hmax : dateMax df i = some e)
    (hsome : (cellDate (cellAt r i)).isSome) :
    dtBetweenPred i s e r = true := by
  obtain ⟨v, hv⟩ := Option.isSome_iff_exists.mp hsome
  have hvmem : v ∈ (colCells df i).filterMap cellDate := by
    rw [List.mem_filterMap]
    exact ⟨cellAt r i, List.mem_map.mpr ⟨r, hr, rfl⟩, hv⟩
  have h1 : s ≤ v := int_min?_le hmin hvmem
  have h2 : v ≤ e := int_le_max? hmax hvmem
  unfold dtBetweenPred
  rw [hv]
  simp [h1, h2]

theorem numericStep_keep {t : Table} {rows : List Row} {e : String × Int × Int}
    {i : Nat} (hi : colIdx t e.1 = some i)
    (hall : ∀ r ∈ rows, betweenPred i e.2.1 e.2.2 r = true) :
    numericStep t rows e = some rows := by
  unfold numericStep
  rw [hi]
  simp only [Option.bind_eq_bind, Option.some_bind]
  by_cases hinert : numMin t i = some e.2.1 ∧ numMax t i = some e.2.2
  · rw [if_pos hinert]
    rfl
  · rw [if_neg hinert, List.filter_eq_self.mpr hall]
    rfl

theorem dtStep_keep {t : Table} {rows : List Row} {e : String × List Int}
    (h2 : ∀ s e', e.2 = [s, e'] → ∃ i, colIdx t e.1 = some i ∧
      ∀ r ∈ rows, dtBetweenPred i s e' r = true) :
    dtStep t rows e = some rows := by
  unfold dtStep
  split
  · rename_i s0 e0 heq
    obtain ⟨i, hi, hall⟩ := h2 s0 e0 heq
    rw [hi]
    simp only [Option.bind_eq_bind, Option.some_bind]
    by_cases hinert : dateMin t i = some s0 ∧ dateMax t i = some e0
    · rw [if_pos hinert]
      rfl
    · rw [if_neg hinert, List.filter_eq_self.mpr hall]
      rfl
  · rfl

theorem catStep_keep {t : Table} {rows : List Row} {e : String × List String}
    (h2 : e.2.isEmpty = false → ∃ i, colIdx t e.1 = some i ∧
      ∀ r ∈ rows, isinPred i e.2 r = true) :
    catStep t rows e = some rows := by
  unfold catStep
  by_cases hemp : e.2.isEmpty
  · rw [if_pos hemp]
    rfl
  · rw [if_neg hemp]
    obtain ⟨i, hi, hall⟩ := h2 (by simpa using hemp)
    rw [hi]
    simp only [Option.bind_eq_bind, Option.some_bind]
    rw [List.filter_eq_self.mpr hall]
    rfl

theorem subStep_keep {t : Table} {rows : List Row} {e : String × String}
    (h2 : e.2.isEmpty = false → ∃ i, colIdx t e.1 = some i ∧
      ∀ r ∈ rows, subPred i e.2 r = true) :
    subStep t rows e = some rows := by
  unfold subStep
  by_cases hemp : e.2.isEmpty
  · rw [if_pos hemp]
    rfl
  · rw [if_neg hemp]
    obtain ⟨i, hi, hall⟩ := h2 (by simpa using hemp)
    rw [hi]
    simp only [Option.bind_eq_bind, Option.some_bind]
    rw [List.filter_eq_self.mpr hall]
    rfl

theorem foldlM_const {α : Type} {f : List Row → α → Option (List Row)}
    {rows : List Row} :
    ∀ {l : List α}, (∀ e ∈ l, f rows e = some rows) →
      l.foldlM f rows = some rows := by
  intro l
  induction l with
  | nil => intro _; rfl
  | cons a l ih =>
      intro h
      rw [List.foldlM_cons, h a (by simp)]
      simpa using ih (fun e he => h e (by simp [he]))

theorem lookup_proj {df : Table} {cols : List String} {pairs : List (Nat × Col)}
    (hm : cols.mapM (lookupCol df) = some pairs) (rows : List (List Cell))
    {c : String} (hc : c ∈ cols) :
    ∃ k i col, lookupCol ⟨pairs.map (fun pc => pc.2), rows⟩ c = some (k, col)
    ∧ pairs.get? k = some (i, col) ∧ lookupCol df c = some (i, col) := by
  obtain ⟨k, i, col, hfind, hpk, hlk⟩ := findIdx_proj hm hc
  refine ⟨k, i, col, ?_, hpk, hlk⟩
  unfold lookupCol colIdx
  simp only
  rw [hfind]
  simp only [Option.some_bind]
  rw [get?_map_eq, hpk]
  rfl

theorem projectTable_self {df : Table} {cols : List String}
    {pairs : List (Nat × Col)}
    (hm : cols.mapM (lookupCol df) = some pairs) (f4 : List Row) :
    projectTable
      ⟨pairs.map (fun pc => pc.2),
       f4.map (fun r => pairs.map (fun pc => cellAt r pc.1))⟩ cols =
    some ⟨pairs.map (fun pc => pc.2),
          f4.map (fun r => pairs.map (fun pc => cellAt r pc.1))⟩ := by
  have hisSome : ((cols.mapM (lookupCol
      ⟨pairs.map (fun pc => pc.2),
       f4.map (fun r => pairs.map (fun pc => cellAt r pc.1))⟩))).isSome := by
    apply mapM_option_isSome
    intro c hc
    obtain ⟨k, i, col, hl, _, _⟩ := lookup_proj hm
      (f4.map (fun r => pairs.map (fun pc => cellAt r pc.1))) hc
    rw [hl]
    simp
  obtain ⟨pairs', hp'⟩ := Option.isSome_iff_exists.mp hisSome
  obtain ⟨hlen', hget'⟩ := mapM_option_get hp'
  obtain ⟨hlen, hget⟩ := mapM_option_get hm
  have hschema : pairs'.map (fun pc => pc.2) = pairs.map (fun pc => pc.2) := by
    apply List.ext_get?
    intro k
    rw [get?_map_eq, get?_map_eq, hget' k, hget k]
    cases hck : cols.get? k with
    | none => simp
    | some c =>
        have hc : c ∈ cols := List.get?_mem hck
        obtain ⟨k2, i2, col2, hl2, hpk2, hlk2⟩ := lookup_proj hm
          (f4.map (fun r => pairs.map (fun pc => cellAt r pc.1))) hc
        simp only [Option.some_bind, hl2, hlk2, Option.map_some']
  have hrows : (f4.map (fun r => pairs.map (fun pc => cellAt r pc.1))).map
      (fun r' => pairs'.map (fun pc => cellAt r' pc.1)) =
      f4.map (fun r => pairs.map (fun pc => cellAt r pc.1)) := by
    have hid : ∀ r' ∈ f4.map (fun r => pairs.map (fun pc => cellAt r pc.1)),
        pairs'.map (fun pc => cellAt r' pc.1) = r' := by
      intro r' hr'
      obtain ⟨r, hr, hreq⟩ := List.mem_map.mp hr'
      subst hreq
      apply List.ext_get?
      intro k
      rw [get?_map_eq, get?_map_eq, hget' k]
      cases hck : cols.get? k with
      | none =>
          have hk : cols.length ≤ k := by
            rw [List.get?_eq_getElem?] at hck
            exact List.getElem?_eq_none_iff.mp hck
          have hpk : pairs.get? k = none := by
            rw [List.get?_eq_getElem?]
            exact List.getElem?_eq_none (by omega)
          rw [hpk]
          simp
      | some c =>
          have hc : c ∈ cols := List.get?_mem hck
          obtain ⟨k2, i2, col2, hl2, hpk2, hlk2⟩ := lookup_proj hm
            (f4.map (fun r => pairs.map (fun pc => cellAt r pc.1))) hc
          have hcellk2 : cellAt (pairs.map (fun pc => cellAt r pc.1)) k2 =
              cellAt r i2 := cellAt_projRow hpk2 r
          have hpairs_k : pairs.get? k = some (i2, col2) := by
            rw [hget k, hck]
            simpa using hlk2
          simp only [Option.some_bind, hl2, Option.map_some', hpairs_k]
          rw [hcellk2]
    have h2 : (f4.map (fun r => pairs.map (fun pc => cellAt r pc.1))).map
        (fun r' => pairs'.map (fun pc => cellAt r' pc.1)) =
        (f4.map (fun r => pairs.map (fun pc => cellAt r pc.1))).map id :=
      List.map_congr_left (fun r' hr' => hid r' hr')
    rw [h2, List.map_id]
  unfold projectTable
  rw [hp']
  simp only [Option.bind_eq_bind, Option.some_bind, Option.pure_def,
    Option.some.injEq]
  rw [hschema, hrows]

theorem numColOk_spec {df : Table} {c : String} {i : Nat}
    (hok : numColOk df c = true) (hi : colIdx df c = some i) :
    ∀ r ∈ df.rows, (cellNum (cellAt r i)).isSome := by
  unfold numColOk at hok
  rw [hi] at hok
  exact fun r hr => List.all_eq_true.mp hok r hr

theorem dateColOk_spec {df : Table} {c : String} {i : Nat}
    (hok : dateColOk df c = true) (hi : colIdx df c = some i) :
    ∀ r ∈ df.rows, (cellDate (cellAt r i)).isSome := by
  unfold dateColOk at hok
  rw [hi] at hok
  exact fun r hr => List.all_eq_true.mp hok r hr

/-- C8 (amended): the Predicate Engine is idempotent on its projection —
applying the same spec to the already-filtered-and-projected table
reproduces that table exactly — provided the projection retains the time
column and every constrained column, and the numeric and non-time
temporal constraint columns contain no missing values.  (Without those
provisos the claim fails: see the counterexample, where a constraint that
is inert on the original table becomes active on the filtered table and
drops its missing-valued rows.) -/
theorem claim_C8_idempotent_amended (df : Table) (sp : Spec)
    (htime : sp.timeCol ∈ sp.projection)
    (hnum : ∀ e ∈ sp.numeric, e.1 ∈ sp.projection ∧ numColOk df e.1 = true)
    (hdtc : ∀ e ∈ sp.temporalC, e.1 ∈ sp.projection ∧ dateColOk df e.1 = true)
    (hcat : ∀ e ∈ sp.categorical, e.1 ∈ sp.projection)
    (htxt : ∀ e ∈ sp.textC, e.1 ∈ sp.projection)
    (t1 : Table) (happly : applyFilters df sp = some t1) :
    applyFilters t1 sp = some t1 := by
  obtain ⟨f4, pairs, hmask, hmapM, ht1⟩ := applyFilters_decomp happly
  obtain ⟨ti, hti, hmem, htimep, hnump, hdtp, hcatp, htxtp⟩ := maskRows_sound hmask
  subst ht1
  obtain ⟨kt, it, colt, hfind_t, hpk_t, hlk_t⟩ := findIdx_proj hmapM htime
  have hit : it = ti := by
    have h0 := (lookupCol_eq hlk_t).1
    rw [hti] at h0
    injection h0 with h0
    exact h0.symm
  subst hit
  have hmaskT1 : maskRows ⟨pairs.map (fun pc => pc.2),
      f4.map (fun r => pairs.map (fun pc => cellAt r pc.1))⟩ sp =
      some (f4.map (fun r => pairs.map (fun pc => cellAt r pc.1))) := by
    have hcid_t : colIdx ⟨pairs.map (fun pc => pc.2),
        f4.map (fun r => pairs.map (fun pc => cellAt r pc.1))⟩ sp.timeCol =
        some kt := hfind_t
    unfold maskRows
    rw [hcid_t]
    simp only [Option.bind_eq_bind, Option.some_bind]
    have hf0 : (f4.map (fun r => pairs.map (fun pc => cellAt r pc.1))).filter
        (timePred sp.window.1 sp.window.2 kt) =
        f4.map (fun r => pairs.map (fun pc => cellAt r pc.1)) := by
      rw [List.filter_eq_self]
      intro r' hr'
      obtain ⟨r, hr, hreq⟩ := List.mem_map.mp hr'
      subst hreq
      rw [timePred_lift hpk_t]
      exact htimep r hr
    rw [hf0]
    have hnumfold : sp.numeric.foldlM (numericStep
        ⟨pairs.map (fun pc => pc.2),
         f4.map (fun r => pairs.map (fun pc => cellAt r pc.1))⟩)
        (f4.map (fun r => pairs.map (fun pc => cellAt r pc.1))) =
        some (f4.map (fun r => pairs.map (fun pc => cellAt r pc.1))) := by
      apply foldlM_const
      intro e he
      obtain ⟨hprojmem, hok⟩ := hnum e he
      obtain ⟨ke, ie, cole, hfind_e, hpk_e, hlk_e⟩ := findIdx_proj hmapM hprojmem
      have hdfidx : colIdx df e.1 = some ie := (lookupCol_eq hlk_e).1
      have hcid_e : colIdx (⟨pairs.map (fun pc => pc.2),
          f4.map (fun r => pairs.map (fun pc => cellAt r pc.1))⟩ : Table) e.1 =
          some ke := hfind_e
      apply numericStep_keep hcid_e
      intro r' hr'
      obtain ⟨r, hr, hreq⟩ := List.mem_map.mp hr'
      subst hreq
      rw [betweenPred_lift hpk_e]
      rcases hnump e he ie hdfidx with hinert | hall
      · exact between_of_inert (hmem r hr) hinert.1 hinert.2
          (numColOk_spec hok hdfidx r (hmem r hr))
      · exact hall r hr
    rw [hnumfold]
    simp only [Option.some_bind]
    have hdtfold : sp.temporalC.foldlM (dtStep
        ⟨pairs.map (fun pc => pc.2),
         f4.map (fun r => pairs.map (fun pc => cellAt r pc.1))⟩)
        (f4.map (fun r => pairs.map (fun pc => cellAt r pc.1))) =
        some (f4.map (fun r => pairs.map (fun pc => cellAt r pc.1))) := by
      apply foldlM_const
      intro e he
      obtain ⟨hprojmem, hok⟩ := hdtc e he
      obtain ⟨ke, ie, cole, hfind_e, hpk_e, hlk_e⟩ := findIdx_proj hmapM hprojmem
      have hdfidx : colIdx df e.1 = some ie := (lookupCol_eq hlk_e).1
      apply dtStep_keep
      intro s e' hse
      refine ⟨ke, hfind_e, ?_⟩
      intro r' hr'
      obtain ⟨r, hr, hreq⟩ := List.mem_map.mp hr'
      subst hreq
      rw [dtBetweenPred_lift hpk_e]
      rcases hdtp e he s e' ie hse hdfidx with hinert | hall
      · exact dt_between_of_inert (hmem r hr) hinert.1 hinert.2
          (dateColOk_spec hok hdfidx r (hmem r hr))
      · exact hall r hr
    rw [hdtfold]
    simp only [Option.some_bind]
    have hcatfold : sp.categorical.foldlM (catStep
        ⟨pairs.map (fun pc => pc.2),
         f4.map (fun r => pairs.map (fun pc => cellAt r pc.1))⟩)
        (f4.map (fun r => pairs.map (fun pc => cellAt r pc.1))) =
        some (f4.map (fun r => pairs.map (fun pc => cellAt r pc.1))) := by
      apply foldlM_const
      intro e he
      obtain ⟨ke, ie, cole, hfind_e, hpk_e, hlk_e⟩ := findIdx_proj hmapM (hcat e he)
      have hdfidx : colIdx df e.1 = some ie := (lookupCol_eq hlk_e).1
      apply catStep_keep
      intro hne
      refine ⟨ke, hfind_e, ?_⟩
      intro r' hr'
      obtain ⟨r, hr, hreq⟩ := List.mem_map.mp hr'
      subst hreq
      rw [isinPred_lift hpk_e]
      exact hcatp e he hne ie hdfidx r hr
    rw [hcatfold]
    simp only [Option.some_bind]
    apply foldlM_const
    intro e he
    obtain ⟨ke, ie, cole, hfind_e, hpk_e, hlk_e⟩ := findIdx_proj hmapM (htxt e he)
    have hdfidx : colIdx df e.1 = some ie := (lookupCol_eq hlk_e).1
    apply subStep_keep
    intro hne
    refine ⟨ke, hfind_e, ?_⟩
    intro r' hr'
    obtain ⟨r, hr, hreq⟩ := List.mem_map.mp hr'
    subst hreq
    rw [subPred_lift hpk_e]
    exact htxtp e he hne ie hdfidx r hr
  unfold applyFilters
  rw [hmaskT1]
  simp only [Option.bind_eq_bind, Option.some_bind]
  exact projectTable_self hmapM f4

/-- Counterexample to C8 as stated: applying `fixtureC8Spec` once to
`fixtureC8Table` keeps the missing-valued row, but applying the same spec
to the result drops it — the engine is not idempotent in general. -/
theorem claim_C8_counterexample :
    applyFilters fixtureC8Table fixtureC8Spec = some fixtureC8Once
    ∧ applyFilters fixtureC8Once fixtureC8Spec = some fixtureC8Twice
    ∧ fixtureC8Twice ≠ fixtureC8Once :=
  ⟨by decide, by decide, by decide⟩

/-- Witness for C8 (amended) at a concrete input: with full projection and
no missing values in the constrained column, re-applying the spec
reproduces the once-filtered table exactly. -/
theorem claim_C8_witness :
    applyFilters fixtureC8OkTable fixtureC8Spec = some fixtureC8OkTable :=
  claim_C8_idempotent_amended fixtureC8OkTable fixtureC8Spec (by decide) (by decide)
    (by decide) (by decide) (by decide) fixtureC8OkTable (by decide)

